import Mathlib

/-!
# Scene assembly of `src/Assets/Scene.cpp`

A shallow embedding of the `Assets::Scene` constructor and destructor.

* `std::vector` values are lists; `size_t` sizes are natural numbers.
* `static_cast<uint32_t>` is reduction modulo `2 ^ 32` (`toUInt32`).
* `float` components are only copied or zero-initialised by this code, never
  computed with, so they are carried as rationals (`Scalar`).
* The declaration of `Vertex::MaterialIndex` lives in a header that is not part
  of the sources at hand.  Its integer type enters the embedding as the map
  `wrap : Int → Int` that reduces a mathematical integer to the value the field
  holds after the store; `wrapInt32` is the map of a signed 32-bit field.
-/

namespace Assets

/-! ## Data model -/

/-- Value of a `float` component. -/
abbrev Scalar := ℚ

/-- Record `glm::vec2`. -/
structure Vec2 where
  x : Scalar
  y : Scalar
  deriving DecidableEq

/-- Record `glm::vec3`. -/
structure Vec3 where
  x : Scalar
  y : Scalar
  z : Scalar
  deriving DecidableEq

/-- Record `glm::vec4`. -/
structure Vec4 where
  x : Scalar
  y : Scalar
  z : Scalar
  w : Scalar
  deriving DecidableEq

/-- Record `glm::uvec2`: two `uint32_t` components. -/
structure UVec2 where
  x : Nat
  y : Nat
  deriving DecidableEq

/-- Record `VkAabbPositionsKHR`: min corner followed by max corner. -/
structure VkAabbPositionsKHR where
  minX : Scalar
  minY : Scalar
  minZ : Scalar
  maxX : Scalar
  maxY : Scalar
  maxZ : Scalar
  deriving DecidableEq

/-- Modelled from the spec: the declaration of `Material` is not among the
sources; the spec describes it as opaque shading parameters that the
constructor only copies.  Its contents are carried as a list of scalars. -/
structure Material where
  Params : List Scalar
  deriving DecidableEq

/-- Modelled from the spec: the declaration of `Vertex` is not among the
sources; the spec lists position, normal, texture coordinate and a material
index.  `MaterialIndex` is the mathematical value of the integer field. -/
structure Vertex where
  Position : Vec3
  Normal : Vec3
  TexCoord : Vec2
  MaterialIndex : Int
  deriving DecidableEq

/-- Modelled from the spec: the declaration of `Sphere` is not among the
sources.  The constructor reads `Center`, `Radius` and the result of
`BoundingBox()`, a pair (min corner, max corner); that result is carried as
data of the object. -/
structure Sphere where
  Center : Vec3
  Radius : Scalar
  BoundingBox : Vec3 × Vec3
  deriving DecidableEq

/-- Modelled from the spec: the polymorphic procedural shape a model may refer
to.  Its dynamic type is either `Sphere` or some other kind of shape, of which
only the bounding volume is recorded. -/
inductive Procedural where
  | sphere (s : Sphere)
  | other (BoundingBox : Vec3 × Vec3)
  deriving DecidableEq

/-- Modelled from the spec: the declaration of `Model` is not among the
sources.  The constructor reads `Vertices()`, `Indices()`, `Materials()` and
`Procedural()`; the last is a pointer, `none` being `nullptr`. -/
structure Model where
  Vertices : List Vertex
  Indices : List Nat
  Materials : List Material
  Procedural : Option Procedural
  deriving DecidableEq

/-! ## Machine integers -/

/-- Conversion `static_cast<uint32_t>(n)` of a `size_t` value. -/
def toUInt32 (n : Nat) : Nat := n % 2 ^ 32

/-- Reduction of an integer into the range of `int32_t`. -/
def wrapInt32 (z : Int) : Int := (z + 2 ^ 31) % 2 ^ 32 - 2 ^ 31

/-! ## Concatenation of the models (Scene.cpp, lines 23-28 and 64-97) -/

/-- The six local vectors the constructor fills while it walks the models. -/
structure SceneArrays where
  vertices : List Vertex
  indices : List Nat
  materials : List Material
  procedurals : List Vec4
  aabbs : List VkAabbPositionsKHR
  offsets : List UVec2
  deriving DecidableEq

/-- The local vectors as declared, all empty. -/
def SceneArrays.empty : SceneArrays :=
  { vertices := [], indices := [], materials := [], procedurals := [], aabbs := [], offsets := [] }

/-- Statement `vertices[i].MaterialIndex += materialOffset`. -/
def addMaterialOffset (wrap : Int → Int) (materialOffset : Nat) (v : Vertex) : Vertex :=
  { v with MaterialIndex := wrap (v.MaterialIndex + (materialOffset : Int)) }

/-- Loop `for (size_t i = vertexOffset; i != vertices.size(); ++i)`; the first
argument counts the iterations left until `i` reaches `vertices.size()`.  The
loop starts at `vertexOffset`, which never exceeds `vertices.size()`, so it is
entered with `vertices.size() - vertexOffset` iterations to go. -/
def adjustMaterialIds (wrap : Int → Int) (materialOffset : Nat) :
    Nat → Nat → List Vertex → List Vertex
  | 0, _, vertices => vertices
  | n + 1, i, vertices =>
    adjustMaterialIds wrap materialOffset n (i + 1)
      (List.modify (addMaterialOffset wrap materialOffset) i vertices)

/-- Cast `dynamic_cast<const Sphere*>(model.Procedural())`. -/
def dynamicCastSphere : Option Procedural → Option Sphere
  | some (Procedural.sphere s) => some s
  | _ => none

/-- Value-initialised `VkAabbPositionsKHR`, as `aabbs.emplace_back()` builds it. -/
def VkAabbPositionsKHR.zero : VkAabbPositionsKHR :=
  { minX := 0, minY := 0, minZ := 0, maxX := 0, maxY := 0, maxZ := 0 }

/-- Value-initialised `glm::vec4`, as `procedurals.emplace_back()` builds it. -/
def Vec4.zero : Vec4 := { x := 0, y := 0, z := 0, w := 0 }

/-- Entry pushed on `aabbs` for a model. -/
def aabbEntry (model : Model) : VkAabbPositionsKHR :=
  match dynamicCastSphere model.Procedural with
  | some sphere =>
    let aabb := sphere.BoundingBox
    { minX := aabb.1.x, minY := aabb.1.y, minZ := aabb.1.z,
      maxX := aabb.2.x, maxY := aabb.2.y, maxZ := aabb.2.z }
  | none => VkAabbPositionsKHR.zero

/-- Entry pushed on `procedurals` for a model. -/
def proceduralEntry (model : Model) : Vec4 :=
  match dynamicCastSphere model.Procedural with
  | some sphere =>
    { x := sphere.Center.x, y := sphere.Center.y, z := sphere.Center.z, w := sphere.Radius }
  | none => Vec4.zero

/-- Body of the loop `for (const auto& model : models_)`. -/
def addModel (wrap : Int → Int) (st : SceneArrays) (model : Model) : SceneArrays :=
  let indexOffset := toUInt32 st.indices.length
  let vertexOffset := toUInt32 st.vertices.length
  let materialOffset := toUInt32 st.materials.length
  let offsets := st.offsets ++ [{ x := indexOffset, y := vertexOffset }]
  let vertices := st.vertices ++ model.Vertices
  let indices := st.indices ++ model.Indices
  let materials := st.materials ++ model.Materials
  let vertices :=
    adjustMaterialIds wrap materialOffset (vertices.length - vertexOffset) vertexOffset vertices
  { vertices := vertices
    indices := indices
    materials := materials
    procedurals := st.procedurals ++ [proceduralEntry model]
    aabbs := st.aabbs ++ [aabbEntry model]
    offsets := offsets }

/-- The arrays the constructor has built when the loop over the models ends. -/
def assemble (wrap : Int → Int) (models : List Model) : SceneArrays :=
  models.foldl (addModel wrap) SceneArrays.empty

/-! ## Thread swizzle table (Scene.cpp, lines 30-61) -/

/-- Number of entries of `threadSwizzle`. -/
def frameSize : Nat := 1280 * 720

/-- How the table is filled.  `identity` is the build with `USE_SWIZZLE`
undefined.  `external file` is the build with `USE_SWIZZLE` defined: `file` is
`none` when `file.is_open()` is false, and otherwise gives, for every
`thread_id`, the value found in `swizzled_thread_id` after the statement
`file >> swizzled_thread_id >> comma` of that iteration. -/
inductive SwizzleStrategy where
  | identity
  | external (file : Option (Nat → Nat))

/-- Loop `for (uint32_t thread_id = 0; thread_id < threadSwizzle.size(); thread_id++)`
storing `value thread_id` at `threadSwizzle[thread_id]`.  The first argument
bounds the number of condition tests; `none` means the bound was reached. -/
def fillThreadSwizzle (value : Nat → Nat) : Nat → Nat → List Nat → Option (List Nat)
  | 0, _, _ => none
  | fuel + 1, thread_id, threadSwizzle =>
    if thread_id < threadSwizzle.length then
      fillThreadSwizzle value fuel (toUInt32 (thread_id + 1))
        (threadSwizzle.set thread_id (value thread_id))
    else
      some threadSwizzle

/-- The table `threadSwizzle` when the constructor reaches the loop over the
models: allocated with `1280 * 720` zero entries, then filled. -/
def buildThreadSwizzle (strategy : SwizzleStrategy) (fuel : Nat) : Option (List Nat) :=
  let threadSwizzle := List.replicate frameSize 0
  match strategy with
  | SwizzleStrategy.identity => fillThreadSwizzle (fun thread_id => thread_id) fuel 0 threadSwizzle
  | SwizzleStrategy.external none => some threadSwizzle
  | SwizzleStrategy.external (some file) =>
    fillThreadSwizzle (fun thread_id => toUInt32 (file thread_id)) fuel 0 threadSwizzle

/-! ## Destructor (Scene.cpp, lines 125-144) -/

/-- The members the destructor releases. -/
inductive Member where
  | textureSamplerHandles
  | textureImageViewHandles
  | textureImages
  | threadSwizzleBuffer
  | threadSwizzleBufferMemory
  | proceduralBuffer
  | proceduralBufferMemory
  | aabbBuffer
  | aabbBufferMemory
  | offsetBuffer
  | offsetBufferMemory
  | materialBuffer
  | materialBufferMemory
  | indexBuffer
  | indexBufferMemory
  | vertexBuffer
  | vertexBufferMemory
  deriving DecidableEq

/-- The `clear()` and `reset()` calls of `Scene::~Scene`, in program order. -/
def destructorReleases : List Member :=
  [ Member.textureSamplerHandles,
    Member.textureImageViewHandles,
    Member.textureImages,
    Member.threadSwizzleBuffer,
    Member.threadSwizzleBufferMemory,
    Member.proceduralBuffer,
    Member.proceduralBufferMemory,
    Member.aabbBuffer,
    Member.aabbBufferMemory,
    Member.offsetBuffer,
    Member.offsetBufferMemory,
    Member.materialBuffer,
    Member.materialBufferMemory,
    Member.indexBuffer,
    Member.indexBufferMemory,
    Member.vertexBuffer,
    Member.vertexBufferMemory ]

/-- The seven buffer categories. -/
inductive BufferCategory where
  | vertex
  | index
  | material
  | offset
  | aabb
  | procedural
  | threadSwizzle
  deriving DecidableEq

/-- The member holding the buffer handle of a category. -/
def BufferCategory.buffer : BufferCategory → Member
  | BufferCategory.vertex => Member.vertexBuffer
  | BufferCategory.index => Member.indexBuffer
  | BufferCategory.material => Member.materialBuffer
  | BufferCategory.offset => Member.offsetBuffer
  | BufferCategory.aabb => Member.aabbBuffer
  | BufferCategory.procedural => Member.proceduralBuffer
  | BufferCategory.threadSwizzle => Member.threadSwizzleBuffer

/-- The member holding the backing memory handle of a category. -/
def BufferCategory.memory : BufferCategory → Member
  | BufferCategory.vertex => Member.vertexBufferMemory
  | BufferCategory.index => Member.indexBufferMemory
  | BufferCategory.material => Member.materialBufferMemory
  | BufferCategory.offset => Member.offsetBufferMemory
  | BufferCategory.aabb => Member.aabbBufferMemory
  | BufferCategory.procedural => Member.proceduralBufferMemory
  | BufferCategory.threadSwizzle => Member.threadSwizzleBufferMemory

/-! ## Sums over the models that precede a position -/

/-- Total number of indices of a model sequence. -/
def indexCount (models : List Model) : Nat := (models.map (fun m => m.Indices.length)).sum

/-- Total number of vertices of a model sequence. -/
def vertexCount (models : List Model) : Nat := (models.map (fun m => m.Vertices.length)).sum

/-- Total number of materials of a model sequence. -/
def materialCount (models : List Model) : Nat := (models.map (fun m => m.Materials.length)).sum

/-! ## Sample inputs -/

/-- A vertex at the origin that refers to material `m` of its model. -/
def sampleVertex (m : Int) : Vertex :=
  { Position := { x := 0, y := 0, z := 0 }, Normal := { x := 0, y := 0, z := 1 },
    TexCoord := { x := 0, y := 0 }, MaterialIndex := m }

/-- A sphere with center (0,0,0) and radius 1, bounded by (-1,-1,-1) and (1,1,1). -/
def unitSphere : Sphere :=
  { Center := { x := 0, y := 0, z := 0 }, Radius := 1,
    BoundingBox := ({ x := -1, y := -1, z := -1 }, { x := 1, y := 1, z := 1 }) }

/-- Model A: 3 vertices, 3 indices, 1 material, no procedural shape. -/
def modelA : Model :=
  { Vertices := [sampleVertex 0, sampleVertex 0, sampleVertex 0]
    Indices := [0, 1, 2]
    Materials := [{ Params := [1] }]
    Procedural := none }

/-- Model B: 4 vertices (the second one refers to material 1), 6 indices,
2 materials and the unit sphere as procedural shape. -/
def modelB : Model :=
  { Vertices := [sampleVertex 0, sampleVertex 1, sampleVertex 0, sampleVertex 0]
    Indices := [0, 1, 2, 2, 3, 0]
    Materials := [{ Params := [2] }, { Params := [3] }]
    Procedural := some (Procedural.sphere unitSphere) }

/-- A model with `2 ^ 32` indices followed by an empty model. -/
def wideIndexModels : List Model :=
  [ { Vertices := [], Indices := List.replicate (2 ^ 32) 0, Materials := [], Procedural := none },
    { Vertices := [], Indices := [], Materials := [], Procedural := none } ]

/-- A model with `2 ^ 32` materials followed by a model with one vertex. -/
def wideMaterialModels : List Model :=
  [ { Vertices := [], Indices := [], Materials := List.replicate (2 ^ 32) { Params := [] },
      Procedural := none },
    { Vertices := [sampleVertex 0], Indices := [], Materials := [], Procedural := none } ]

/-- A model with `2 ^ 32` copies of one material followed by a model whose only
vertex refers to its only, different, material. -/
def shadowedMaterialModels : List Model :=
  [ { Vertices := [], Indices := [], Materials := List.replicate (2 ^ 32) { Params := [7] },
      Procedural := none },
    { Vertices := [sampleVertex 0], Indices := [], Materials := [{ Params := [9] }],
      Procedural := none } ]

/-- A model whose procedural shape is not a sphere; its bounding volume spans
(1,1,1) to (2,2,2). -/
def boxModel : Model :=
  { Vertices := [], Indices := [], Materials := []
    Procedural := some (Procedural.other ({ x := 1, y := 1, z := 1 }, { x := 2, y := 2, z := 2 })) }


/-! ## Buffer uploads (Scene.cpp, lines 99-109) -/

/-- Value of `VK_BUFFER_USAGE_INDEX_BUFFER_BIT` in the Vulkan API header. -/
def VK_BUFFER_USAGE_INDEX_BUFFER_BIT : Nat := 0x00000040

/-- Value of `VK_BUFFER_USAGE_VERTEX_BUFFER_BIT` in the Vulkan API header. -/
def VK_BUFFER_USAGE_VERTEX_BUFFER_BIT : Nat := 0x00000080

/-- Value of `VK_BUFFER_USAGE_STORAGE_BUFFER_BIT` in the Vulkan API header. -/
def VK_BUFFER_USAGE_STORAGE_BUFFER_BIT : Nat := 0x00000020

/-- Value of `VK_BUFFER_USAGE_SHADER_DEVICE_ADDRESS_BIT` in the Vulkan API header. -/
def VK_BUFFER_USAGE_SHADER_DEVICE_ADDRESS_BIT : Nat := 0x00020000

/-- The local `flag` of the constructor. -/
def flag (usedForRayTracing : Bool) : Nat :=
  if usedForRayTracing then
    VK_BUFFER_USAGE_STORAGE_BUFFER_BIT ||| VK_BUFFER_USAGE_SHADER_DEVICE_ADDRESS_BIT
  else 0

/-- The seven `CreateDeviceBuffer` calls in program order, each with the buffer
category it fills and the usage argument it passes. -/
def deviceBufferUploads (usedForRayTracing : Bool) : List (BufferCategory × Nat) :=
  [ (BufferCategory.vertex, VK_BUFFER_USAGE_VERTEX_BUFFER_BIT ||| flag usedForRayTracing),
    (BufferCategory.index, VK_BUFFER_USAGE_INDEX_BUFFER_BIT ||| flag usedForRayTracing),
    (BufferCategory.material, flag usedForRayTracing),
    (BufferCategory.offset, flag usedForRayTracing),
    (BufferCategory.aabb, flag usedForRayTracing),
    (BufferCategory.procedural, flag usedForRayTracing),
    (BufferCategory.threadSwizzle, flag usedForRayTracing) ]

/-- Whether a usage value contains every bit of `bit`. -/
def containsBit (usage bit : Nat) : Prop := usage &&& bit = bit

instance (usage bit : Nat) : Decidable (containsBit usage bit) := by
  unfold containsBit
  exact inferInstance

/-! ## Texture uploads (Scene.cpp, lines 112-122) -/

/-- Modelled from the spec: the declaration of `Texture` is not among the
sources; a texture is decoded image data that the constructor hands to the
uploader unread. -/
structure Texture where
  Pixels : List Nat
  deriving DecidableEq

/-- Modelled from the spec: the declaration of `TextureImage` is not among the
sources; the spec gives the upload of a texture as yielding an image handle, a
view handle and a sampler handle.  `ImageView` and `Sampler` are the values of
`ImageView().Handle()` and `Sampler().Handle()`. -/
structure TextureImage where
  Image : Nat
  ImageView : Nat
  Sampler : Nat
  deriving DecidableEq

/-- The three texture members of the scene. -/
structure TextureArrays where
  textureImages : List TextureImage
  textureImageViewHandles : List Nat
  textureSamplerHandles : List Nat
  deriving DecidableEq

/-- Loop `for (size_t i = 0; i != textures_.size(); ++i)`; the first argument
counts the iterations left.  `newTextureImage` stands for the expression
`new TextureImage(commandPool, textures_[i])`: from the state of the device it
gives the state after the upload and the image built. -/
def uploadTexturesLoop {σ : Type} (newTextureImage : σ → Texture → σ × TextureImage)
    (textures : List Texture) : Nat → Nat → σ × TextureArrays → σ × TextureArrays
  | 0, _, st => st
  | n + 1, i, (device, arrays) =>
    match textures[i]? with
    | none => (device, arrays)
    | some texture =>
      let built := newTextureImage device texture
      let textureImages := arrays.textureImages ++ [built.2]
      let viewHandle := ((textureImages[i]?).map (fun image => image.ImageView)).getD 0
      let samplerHandle := ((textureImages[i]?).map (fun image => image.Sampler)).getD 0
      uploadTexturesLoop newTextureImage textures n (i + 1)
        (built.1,
          { textureImages := textureImages
            textureImageViewHandles := arrays.textureImageViewHandles.set i viewHandle
            textureSamplerHandles := arrays.textureSamplerHandles.set i samplerHandle })

/-- The texture part of the constructor: the two handle arrays are resized to
`textures_.size()` null handles, then the loop runs from 0. -/
def uploadTextures {σ : Type} (newTextureImage : σ → Texture → σ × TextureImage)
    (device : σ) (textures : List Texture) : σ × TextureArrays :=
  uploadTexturesLoop newTextureImage textures textures.length 0
    (device,
      { textureImages := []
        textureImageViewHandles := List.replicate textures.length 0
        textureSamplerHandles := List.replicate textures.length 0 })

/-- The images obtained by uploading the textures one after the other, each
upload starting from the device state the previous one left. -/
def uploadedImages {σ : Type} (newTextureImage : σ → Texture → σ × TextureImage) :
    σ → List Texture → List TextureImage
  | _, [] => []
  | device, texture :: rest =>
    (newTextureImage device texture).2 ::
      uploadedImages newTextureImage (newTextureImage device texture).1 rest

/-! ## Acquisition and release order -/

/-- A resource category: one of the seven buffers, or the textures. -/
inductive ResourceCategory where
  | buffer (c : BufferCategory)
  | texture
  deriving DecidableEq

/-- The categories in the order in which the constructor acquires them: the
seven buffer uploads, then the texture upload loop. -/
def constructorAcquires (usedForRayTracing : Bool) : List ResourceCategory :=
  (deviceBufferUploads usedForRayTracing).map (fun upload => ResourceCategory.buffer upload.1) ++
    [ResourceCategory.texture]

/-- The category a member belongs to. -/
def Member.category : Member → ResourceCategory
  | Member.textureSamplerHandles => ResourceCategory.texture
  | Member.textureImageViewHandles => ResourceCategory.texture
  | Member.textureImages => ResourceCategory.texture
  | Member.threadSwizzleBuffer => ResourceCategory.buffer BufferCategory.threadSwizzle
  | Member.threadSwizzleBufferMemory => ResourceCategory.buffer BufferCategory.threadSwizzle
  | Member.proceduralBuffer => ResourceCategory.buffer BufferCategory.procedural
  | Member.proceduralBufferMemory => ResourceCategory.buffer BufferCategory.procedural
  | Member.aabbBuffer => ResourceCategory.buffer BufferCategory.aabb
  | Member.aabbBufferMemory => ResourceCategory.buffer BufferCategory.aabb
  | Member.offsetBuffer => ResourceCategory.buffer BufferCategory.offset
  | Member.offsetBufferMemory => ResourceCategory.buffer BufferCategory.offset
  | Member.materialBuffer => ResourceCategory.buffer BufferCategory.material
  | Member.materialBufferMemory => ResourceCategory.buffer BufferCategory.material
  | Member.indexBuffer => ResourceCategory.buffer BufferCategory.index
  | Member.indexBufferMemory => ResourceCategory.buffer BufferCategory.index
  | Member.vertexBuffer => ResourceCategory.buffer BufferCategory.vertex
  | Member.vertexBufferMemory => ResourceCategory.buffer BufferCategory.vertex

/-- The categories in the order in which the destructor releases them: the
category of each released member, a run of members of one category counted once. -/
def destructorCategories : List ResourceCategory :=
  (destructorReleases.map Member.category).destutter (fun a b => a ≠ b)

/-! ## Vertex fields other than the material index -/

/-- Position, normal and texture coordinate of a vertex. -/
def Vertex.geometry (v : Vertex) : Vec3 × Vec3 × Vec2 := (v.Position, v.Normal, v.TexCoord)

/-! ## More sample inputs -/

/-- A single model with `2 ^ 32` indices. -/
def wideIndexPrefix : List Model :=
  [ { Vertices := [], Indices := List.replicate (2 ^ 32) 0, Materials := [], Procedural := none } ]

/-- A single empty model. -/
def emptySuffix : List Model :=
  [ { Vertices := [], Indices := [], Materials := [], Procedural := none } ]

/-- Two textures. -/
def sampleTextures : List Texture := [{ Pixels := [1] }, { Pixels := [2, 3] }]

/-- An uploader whose device state counts the uploads made so far and whose
handles are numbered from that count. -/
def countingUpload (device : Nat) (_texture : Texture) : Nat × TextureImage :=
  (device + 1, { Image := 3 * device + 1, ImageView := 3 * device + 2, Sampler := 3 * device + 3 })

/-! ## The material-index loop -/

theorem adjustMaterialIds_length (wrap : Int → Int) (off n : Nat) :
    ∀ (i : Nat) (vs : List Vertex), (adjustMaterialIds wrap off n i vs).length = vs.length := by
  induction n with
  | zero => intro i vs; rfl
  | succ n ih => intro i vs; simp [adjustMaterialIds, ih]

theorem adjustMaterialIds_getElem? (wrap : Int → Int) (off n : Nat) :
    ∀ (i : Nat) (vs : List Vertex) (k : Nat),
      (adjustMaterialIds wrap off n i vs)[k]? =
        if i ≤ k ∧ k < i + n then (vs[k]?).map (addMaterialOffset wrap off) else vs[k]? := by
  induction n with
  | zero =>
    intro i vs k
    have : ¬ (i ≤ k ∧ k < i + 0) := by omega
    rw [if_neg this, adjustMaterialIds]
  | succ n ih =>
    intro i vs k
    rw [adjustMaterialIds, ih, List.getElem?_modify]
    by_cases h1 : i = k
    · subst h1
      have a : ¬ (i + 1 ≤ i ∧ i < i + 1 + n) := by omega
      have b : i ≤ i ∧ i < i + (n + 1) := by omega
      simp [a, b]
    · by_cases h2 : i + 1 ≤ k ∧ k < i + 1 + n
      · have b : i ≤ k ∧ k < i + (n + 1) := by omega
        simp [h1, h2, b]
      · have b : ¬ (i ≤ k ∧ k < i + (n + 1)) := by omega
        simp [h1, h2, b]

/-- When the loop starts at the old end of the array it rebases exactly the
vertices just appended. -/
theorem adjustMaterialIds_append (wrap : Int → Int) (off : Nat) (old new : List Vertex) :
    adjustMaterialIds wrap off ((old ++ new).length - old.length) old.length (old ++ new) =
      old ++ new.map (addMaterialOffset wrap off) := by
  apply List.ext_getElem?
  intro k
  rw [adjustMaterialIds_getElem?]
  by_cases h : k < old.length
  · have a : ¬ (old.length ≤ k ∧ k < old.length + ((old ++ new).length - old.length)) := by omega
    rw [if_neg a, List.getElem?_append_left h, List.getElem?_append_left h]
  · have hk : old.length ≤ k := by omega
    rw [List.getElem?_append_right hk, List.getElem?_append_right hk, List.getElem?_map]
    by_cases h2 : k < old.length + ((old ++ new).length - old.length)
    · rw [if_pos ⟨hk, h2⟩]
    · have h3 : new[k - old.length]? = none := by
        apply List.getElem?_eq_none
        rw [List.length_append] at h2
        omega
      rw [h3]
      simp


/-! ## The loop over the models -/

theorem assemble_snoc (wrap : Int → Int) (xs : List Model) (m : Model) :
    assemble wrap (xs ++ [m]) = addModel wrap (assemble wrap xs) m := by
  simp [assemble, List.foldl_append]

theorem indexCount_snoc (xs : List Model) (m : Model) :
    indexCount (xs ++ [m]) = indexCount xs + m.Indices.length := by
  simp [indexCount]

theorem vertexCount_snoc (xs : List Model) (m : Model) :
    vertexCount (xs ++ [m]) = vertexCount xs + m.Vertices.length := by
  simp [vertexCount]

theorem materialCount_snoc (xs : List Model) (m : Model) :
    materialCount (xs ++ [m]) = materialCount xs + m.Materials.length := by
  simp [materialCount]

theorem assemble_indices (wrap : Int → Int) (models : List Model) :
    (assemble wrap models).indices = (models.map (fun m => m.Indices)).flatten := by
  induction models using List.reverseRecOn with
  | nil => rfl
  | append_singleton xs m ih => rw [assemble_snoc]; simp [addModel, ih]

theorem assemble_materials (wrap : Int → Int) (models : List Model) :
    (assemble wrap models).materials = (models.map (fun m => m.Materials)).flatten := by
  induction models using List.reverseRecOn with
  | nil => rfl
  | append_singleton xs m ih => rw [assemble_snoc]; simp [addModel, ih]

theorem assemble_aabbs (wrap : Int → Int) (models : List Model) :
    (assemble wrap models).aabbs = models.map aabbEntry := by
  induction models using List.reverseRecOn with
  | nil => rfl
  | append_singleton xs m ih => rw [assemble_snoc]; simp [addModel, ih]

theorem assemble_procedurals (wrap : Int → Int) (models : List Model) :
    (assemble wrap models).procedurals = models.map proceduralEntry := by
  induction models using List.reverseRecOn with
  | nil => rfl
  | append_singleton xs m ih => rw [assemble_snoc]; simp [addModel, ih]

theorem assemble_indices_length (wrap : Int → Int) (models : List Model) :
    (assemble wrap models).indices.length = indexCount models := by
  induction models using List.reverseRecOn with
  | nil => rfl
  | append_singleton xs m ih => rw [assemble_snoc, indexCount_snoc]; simp [addModel, ih]

theorem assemble_materials_length (wrap : Int → Int) (models : List Model) :
    (assemble wrap models).materials.length = materialCount models := by
  induction models using List.reverseRecOn with
  | nil => rfl
  | append_singleton xs m ih => rw [assemble_snoc, materialCount_snoc]; simp [addModel, ih]

theorem assemble_vertices_length (wrap : Int → Int) (models : List Model) :
    (assemble wrap models).vertices.length = vertexCount models := by
  induction models using List.reverseRecOn with
  | nil => rfl
  | append_singleton xs m ih =>
    rw [assemble_snoc, vertexCount_snoc]
    simp [addModel, adjustMaterialIds_length, ih]

theorem assemble_offsets_length (wrap : Int → Int) (models : List Model) :
    (assemble wrap models).offsets.length = models.length := by
  induction models using List.reverseRecOn with
  | nil => rfl
  | append_singleton xs m ih => rw [assemble_snoc]; simp [addModel, ih]

theorem assemble_snoc_offsets (wrap : Int → Int) (xs : List Model) (m : Model) :
    (assemble wrap (xs ++ [m])).offsets =
      (assemble wrap xs).offsets ++
        [{ x := toUInt32 (indexCount xs), y := toUInt32 (vertexCount xs) }] := by
  rw [assemble_snoc]
  simp [addModel, assemble_indices_length, assemble_vertices_length]

/-- The offset record of model `i`: the sizes of the index and vertex arrays
before that model, each converted to `uint32_t`. -/
theorem assemble_offsets_getElem? (wrap : Int → Int) (models : List Model) :
    ∀ i, i < models.length →
      (assemble wrap models).offsets[i]? =
        some { x := toUInt32 (indexCount (models.take i)),
               y := toUInt32 (vertexCount (models.take i)) } := by
  induction models using List.reverseRecOn with
  | nil => intro i hi; simp at hi
  | append_singleton xs m ih =>
    intro i hi
    rw [assemble_snoc_offsets]
    have hlen := assemble_offsets_length wrap xs
    by_cases h : i < xs.length
    · rw [List.getElem?_append_left (by omega), List.take_append_of_le_length (by omega)]
      exact ih i h
    · have hi2 : i = xs.length := by
        rw [List.length_append, List.length_singleton] at hi
        omega
      subst hi2
      rw [List.getElem?_append_right (by omega), hlen]
      simp

theorem toUInt32_of_lt {n : Nat} (h : n < 2 ^ 32) : toUInt32 n = n := by
  unfold toUInt32
  exact Nat.mod_eq_of_lt h

/-- While the vertex array holds fewer than `2 ^ 32` entries, one pass of the
loop body appends the model's vertices with their material index rebased. -/
theorem assemble_snoc_vertices (wrap : Int → Int) (xs : List Model) (m : Model)
    (h : vertexCount xs < 2 ^ 32) :
    (assemble wrap (xs ++ [m])).vertices =
      (assemble wrap xs).vertices ++
        m.Vertices.map (addMaterialOffset wrap (toUInt32 (materialCount xs))) := by
  have hv : toUInt32 (assemble wrap xs).vertices.length = (assemble wrap xs).vertices.length := by
    apply toUInt32_of_lt
    rw [assemble_vertices_length]
    exact h
  rw [assemble_snoc]
  show adjustMaterialIds wrap (toUInt32 (assemble wrap xs).materials.length)
      (((assemble wrap xs).vertices ++ m.Vertices).length -
        toUInt32 (assemble wrap xs).vertices.length)
      (toUInt32 (assemble wrap xs).vertices.length)
      ((assemble wrap xs).vertices ++ m.Vertices) = _
  rw [hv, adjustMaterialIds_append, assemble_materials_length]

/-- Where the copy of vertex `k` of model `i` sits in the combined array, and
what it holds, while the vertex array stays below `2 ^ 32` entries. -/
theorem assemble_vertices_getElem? (wrap : Int → Int) (models : List Model) :
    vertexCount models < 2 ^ 32 →
    ∀ (i k : Nat) (mi : Model) (v : Vertex),
      models[i]? = some mi → mi.Vertices[k]? = some v →
      (assemble wrap models).vertices[vertexCount (models.take i) + k]? =
        some (addMaterialOffset wrap (toUInt32 (materialCount (models.take i))) v) := by
  induction models using List.reverseRecOn with
  | nil => intro _ i k mi v hi; simp at hi
  | append_singleton xs m ih =>
    intro hlt i k mi v hi hk
    rw [vertexCount_snoc] at hlt
    have hxs : vertexCount xs < 2 ^ 32 := by omega
    rw [assemble_snoc_vertices wrap xs m hxs]
    by_cases h : i < xs.length
    · rw [List.getElem?_append_left h] at hi
      rw [List.take_append_of_le_length (by omega)]
      have key := ih hxs i k mi v hi hk
      have hpos : vertexCount (List.take i xs) + k < (assemble wrap xs).vertices.length := by
        by_contra hc
        rw [List.getElem?_eq_none (by omega)] at key
        exact Option.noConfusion key
      rw [List.getElem?_append_left hpos]
      exact key
    · have hilen : i < (xs ++ [m]).length := by
        by_contra hc
        rw [List.getElem?_eq_none (by omega)] at hi
        exact Option.noConfusion hi
      have hi2 : i = xs.length := by
        rw [List.length_append, List.length_singleton] at hilen
        omega
      subst hi2
      rw [List.getElem?_append_right (Nat.le_refl _)] at hi
      simp at hi
      subst hi
      have hlen := assemble_vertices_length wrap xs
      rw [List.take_left, List.getElem?_append_right (by omega), hlen]
      simp [hk]


/-- The material a valid pre-merge index selects in its own model is the
material the rebased index selects in the combined array. -/
theorem assemble_materials_getElem? (wrap : Int → Int) (models : List Model) :
    ∀ (i j : Nat) (mi : Model), models[i]? = some mi → j < mi.Materials.length →
      (assemble wrap models).materials[materialCount (models.take i) + j]? =
        mi.Materials[j]? := by
  induction models using List.reverseRecOn with
  | nil => intro i j mi hi; simp at hi
  | append_singleton xs m ih =>
    intro i j mi hi hj
    have hsnoc : (assemble wrap (xs ++ [m])).materials =
        (assemble wrap xs).materials ++ m.Materials := by
      rw [assemble_snoc]; rfl
    rw [hsnoc]
    by_cases h : i < xs.length
    · rw [List.getElem?_append_left h] at hi
      rw [List.take_append_of_le_length (by omega)]
      have key := ih i j mi hi hj
      have hpos : materialCount (List.take i xs) + j < (assemble wrap xs).materials.length := by
        by_contra hc
        rw [List.getElem?_eq_none (by omega)] at key
        rw [List.getElem?_eq_getElem hj] at key
        exact Option.noConfusion key
      rw [List.getElem?_append_left hpos]
      exact key
    · have hilen : i < (xs ++ [m]).length := by
        by_contra hc
        rw [List.getElem?_eq_none (by omega)] at hi
        exact Option.noConfusion hi
      have hi2 : i = xs.length := by
        rw [List.length_append, List.length_singleton] at hilen
        omega
      subst hi2
      rw [List.getElem?_append_right (Nat.le_refl _)] at hi
      simp at hi
      subst hi
      have hlen := assemble_materials_length wrap xs
      rw [List.take_left, List.getElem?_append_right (by omega), hlen]
      simp

theorem materialCount_take_le (models : List Model) (i : Nat) :
    materialCount (models.take i) ≤ materialCount models := by
  induction models using List.reverseRecOn with
  | nil => simp
  | append_singleton xs m ih =>
    rw [materialCount_snoc]
    by_cases h : i ≤ xs.length
    · rw [List.take_append_of_le_length h]; omega
    · rw [List.take_of_length_le (by simp; omega), materialCount_snoc]

/-- With fewer than `2 ^ 32` vertices and materials, and an index field that
can hold every position of the combined material array, every combined vertex
carries a valid position of that array. -/
theorem assemble_vertices_valid (wrap : Int → Int) (models : List Model) :
    vertexCount models < 2 ^ 32 → materialCount models < 2 ^ 32 →
    (∀ z : Int, 0 ≤ z → z < (materialCount models : Int) → wrap z = z) →
    (∀ m ∈ models, ∀ v ∈ m.Vertices,
      0 ≤ v.MaterialIndex ∧ v.MaterialIndex < (m.Materials.length : Int)) →
    ∀ v' ∈ (assemble wrap models).vertices,
      0 ≤ v'.MaterialIndex ∧ v'.MaterialIndex < (materialCount models : Int) := by
  induction models using List.reverseRecOn with
  | nil => intro _ _ _ _ v' hv'; simp [assemble, SceneArrays.empty] at hv'
  | append_singleton xs m ih =>
    intro hv hm hw hvalid v' hv'
    rw [vertexCount_snoc] at hv
    rw [materialCount_snoc] at hm hw ⊢
    rw [assemble_snoc_vertices wrap xs m (by omega), List.mem_append] at hv'
    rcases hv' with hold | hnew
    · have := ih (by omega) (by omega)
        (fun z hz0 hz => hw z hz0 (by push_cast; omega))
        (fun m' hm' => hvalid m' (List.mem_append_left _ hm')) v' hold
      push_cast
      omega
    · rw [List.mem_map] at hnew
      obtain ⟨v, hvmem, rfl⟩ := hnew
      have hval := hvalid m (by simp) v hvmem
      have hoff : toUInt32 (materialCount xs) = materialCount xs := toUInt32_of_lt (by omega)
      show 0 ≤ wrap (v.MaterialIndex + ((toUInt32 (materialCount xs) : Nat) : Int)) ∧
        wrap (v.MaterialIndex + ((toUInt32 (materialCount xs) : Nat) : Int)) < _
      rw [hoff, hw _ (by omega) (by push_cast; omega)]
      push_cast
      omega


/-! ## Lemmas on the sample inputs -/

theorem toUInt32_two_pow : toUInt32 (2 ^ 32) = 0 := by
  unfold toUInt32
  exact Nat.mod_self _

theorem wideIndexModels_take :
    indexCount (wideIndexModels.take 1) = 2 ^ 32 ∧ vertexCount (wideIndexModels.take 1) = 0 := by
  constructor
  · unfold indexCount wideIndexModels
    simp only [List.take_succ_cons, List.take_zero, List.map_cons, List.map_nil, List.sum_cons,
      List.sum_nil, List.length_replicate, Nat.add_zero]
  · rfl

theorem wideMaterialModels_take :
    materialCount (wideMaterialModels.take 1) = 2 ^ 32 ∧
      vertexCount (wideMaterialModels.take 1) = 0 := by
  constructor
  · unfold materialCount wideMaterialModels
    simp only [List.take_succ_cons, List.take_zero, List.map_cons, List.map_nil, List.sum_cons,
      List.sum_nil, List.length_replicate, Nat.add_zero]
  · rfl

theorem shadowedMaterialModels_take :
    materialCount (shadowedMaterialModels.take 1) = 2 ^ 32 ∧
      vertexCount (shadowedMaterialModels.take 1) = 0 := by
  constructor
  · unfold materialCount shadowedMaterialModels
    simp only [List.take_succ_cons, List.take_zero, List.map_cons, List.map_nil, List.sum_cons,
      List.sum_nil, List.length_replicate, Nat.add_zero]
  · rfl

/-! ## Claims -/

/-- C1, as stated, fails: after a model with `2 ^ 32` indices the offset record
of the next model is (0, 0), while the index counts before it sum to `2 ^ 32`. -/
theorem C1_offsets_counterexample :
    (assemble wrapInt32 wideIndexModels).offsets[1]? = some { x := 0, y := 0 } ∧
      indexCount (wideIndexModels.take 1) = 4294967296 := by
  constructor
  · rw [assemble_offsets_getElem? wrapInt32 wideIndexModels 1 (by decide),
      wideIndexModels_take.1, wideIndexModels_take.2, toUInt32_two_pow]
    rfl
  · exact wideIndexModels_take.1

/-- C1 (amended): the constructor stores exactly one offset record per model,
in model order, and the record of model `i` is the pair (sum of the index
counts of models `0..i-1`, sum of the vertex counts of models `0..i-1`) with
each component reduced modulo `2 ^ 32`; the components are the plain sums
whenever those are below `2 ^ 32`. -/
theorem C1_offsets (wrap : Int → Int) (models : List Model) :
    (assemble wrap models).offsets.length = models.length ∧
    ∀ i, i < models.length →
      (assemble wrap models).offsets[i]? =
          some { x := indexCount (models.take i) % 2 ^ 32,
                 y := vertexCount (models.take i) % 2 ^ 32 } ∧
      (indexCount (models.take i) < 2 ^ 32 → vertexCount (models.take i) < 2 ^ 32 →
        (assemble wrap models).offsets[i]? =
          some { x := indexCount (models.take i), y := vertexCount (models.take i) }) := by
  refine ⟨assemble_offsets_length wrap models, ?_⟩
  intro i hi
  have h := assemble_offsets_getElem? wrap models i hi
  refine ⟨h, ?_⟩
  intro h1 h2
  rw [h, toUInt32_of_lt h1, toUInt32_of_lt h2]

/-- C1 (amended) at models A and B, position 1. -/
theorem C1_offsets_witness :
    1 < [modelA, modelB].length ∧
      (assemble wrapInt32 [modelA, modelB]).offsets[1]? = some { x := 3, y := 3 } :=
  ⟨by decide,
    ((C1_offsets wrapInt32 [modelA, modelB]).2 1 (by decide)).2 (by decide) (by decide)⟩

/-- C2, as stated, fails: after a model with `2 ^ 32` materials the vertex of
the next model keeps material index 0, while the material counts before it sum
to `2 ^ 32`. -/
theorem C2_material_index_counterexample :
    wideMaterialModels[1]? = some
        { Vertices := [sampleVertex 0], Indices := [], Materials := [], Procedural := none } ∧
      (∃ v', (assemble wrapInt32 wideMaterialModels).vertices[
          vertexCount (wideMaterialModels.take 1) + 0]? = some v' ∧ v'.MaterialIndex = 0) ∧
      (sampleVertex 0).MaterialIndex + (materialCount (wideMaterialModels.take 1) : Int) =
        4294967296 := by
  refine ⟨rfl, ⟨sampleVertex 0, ?_, rfl⟩, ?_⟩
  · rw [assemble_vertices_getElem? wrapInt32 wideMaterialModels (by decide) 1 0 _
      (sampleVertex 0) rfl rfl, wideMaterialModels_take.1, toUInt32_two_pow]
    rfl
  · rw [wideMaterialModels_take.1]
    decide

/-- C2 (amended): when the total vertex count is below `2 ^ 32`, the copy of
vertex `k` of model `i` sits at position (vertex counts of models `0..i-1`) + `k`
of the combined vertex array and its material index is the pre-merge index `m`
plus (sum of the material counts of models `0..i-1`, reduced modulo `2 ^ 32`),
stored into the index field; it is `m` plus the plain sum whenever the sum is
below `2 ^ 32` and the field can hold the result. -/
theorem C2_material_index (wrap : Int → Int) (models : List Model)
    (hv : vertexCount models < 2 ^ 32) (i k : Nat) (mi : Model) (v : Vertex)
    (hi : models[i]? = some mi) (hk : mi.Vertices[k]? = some v) :
    ∃ v', (assemble wrap models).vertices[vertexCount (models.take i) + k]? = some v' ∧
      v'.MaterialIndex =
        wrap (v.MaterialIndex + ((materialCount (models.take i) % 2 ^ 32 : Nat) : Int)) ∧
      (materialCount (models.take i) < 2 ^ 32 →
        wrap (v.MaterialIndex + (materialCount (models.take i) : Int)) =
          v.MaterialIndex + (materialCount (models.take i) : Int) →
        v'.MaterialIndex = v.MaterialIndex + (materialCount (models.take i) : Int)) := by
  refine ⟨_, assemble_vertices_getElem? wrap models hv i k mi v hi hk, rfl, ?_⟩
  intro h1 h2
  show wrap (v.MaterialIndex + ((toUInt32 (materialCount (models.take i)) : Nat) : Int)) = _
  rw [toUInt32_of_lt h1, h2]

/-- C2 (amended) at models A and B: the second vertex of B ends with index 2. -/
theorem C2_material_index_witness :
    ∃ v', (assemble wrapInt32 [modelA, modelB]).vertices[
        vertexCount ([modelA, modelB].take 1) + 1]? = some v' ∧ v'.MaterialIndex = 2 := by
  obtain ⟨v', h1, _, h3⟩ := C2_material_index wrapInt32 [modelA, modelB] (by decide) 1 1 modelB
    (sampleVertex 1) rfl rfl
  exact ⟨v', h1, h3 (by decide) (by decide)⟩

/-- C3: the combined index array is the concatenation, in model order, of the
models' index arrays, every value unchanged. -/
theorem C3_indices_verbatim (wrap : Int → Int) (models : List Model) :
    (assemble wrap models).indices = (models.map (fun m => m.Indices)).flatten :=
  assemble_indices wrap models

/-- C4: the combined vertex, index and material arrays have as many entries as
the models have vertices, indices and materials in total. -/
theorem C4_lengths (wrap : Int → Int) (models : List Model) :
    (assemble wrap models).vertices.length = (models.map (fun m => m.Vertices.length)).sum ∧
    (assemble wrap models).indices.length = (models.map (fun m => m.Indices.length)).sum ∧
    (assemble wrap models).materials.length = (models.map (fun m => m.Materials.length)).sum :=
  ⟨assemble_vertices_length wrap models, assemble_indices_length wrap models,
    assemble_materials_length wrap models⟩


/-- C5, as stated, fails: after a model with `2 ^ 32` materials, the vertex of
the next model refers to material 0 of its own one-material model, keeps index
0 after the merge, and entry 0 of the combined material array is a material
of the first model. -/
theorem C5_material_lookup_counterexample :
    shadowedMaterialModels[1]? = some
        { Vertices := [sampleVertex 0], Indices := [], Materials := [{ Params := [9] }],
          Procedural := none } ∧
      (∀ m ∈ shadowedMaterialModels, ∀ v ∈ m.Vertices,
        0 ≤ v.MaterialIndex ∧ v.MaterialIndex < (m.Materials.length : Int)) ∧
      (assemble wrapInt32 shadowedMaterialModels).vertices[
          vertexCount (shadowedMaterialModels.take 1) + 0]? = some (sampleVertex 0) ∧
      (assemble wrapInt32 shadowedMaterialModels).materials[
          ((sampleVertex 0).MaterialIndex).toNat]? = some { Params := [7] } ∧
      [({ Params := [9] } : Material)][((sampleVertex 0).MaterialIndex).toNat]? =
        some { Params := [9] } := by
  refine ⟨rfl, ?_, ?_, ?_, rfl⟩
  · intro m hm v hv
    simp only [shadowedMaterialModels, List.mem_cons, List.mem_singleton, List.not_mem_nil,
      or_false] at hm
    rcases hm with rfl | rfl
    · simp at hv
    · simp only [List.mem_singleton] at hv
      subst hv
      decide
  · rw [assemble_vertices_getElem? wrapInt32 shadowedMaterialModels (by decide) 1 0 _
      (sampleVertex 0) rfl rfl, shadowedMaterialModels_take.1, toUInt32_two_pow]
    rfl
  · rw [assemble_materials]
    show (List.replicate (2 ^ 32) ({ Params := [7] } : Material) ++ _)[0]? = _
    rw [List.getElem?_append_left (by rw [List.length_replicate]; exact Nat.two_pow_pos 32),
      List.getElem?_replicate, if_pos (Nat.two_pow_pos 32)]

/-- C5 (amended): when the total vertex count and the total material count are
below `2 ^ 32`, the material-index field can hold every position of the
combined material array, and each vertex's pre-merge material index is a valid
index into its own model's material array, then after the merge every vertex's
material index is a valid index into the combined material array, and the
material found there is the one the vertex referred to in its own model. -/
theorem C5_material_lookup (wrap : Int → Int) (models : List Model)
    (hv : vertexCount models < 2 ^ 32) (hm : materialCount models < 2 ^ 32)
    (hw : ∀ z : Int, 0 ≤ z → z < (materialCount models : Int) → wrap z = z)
    (hvalid : ∀ m ∈ models, ∀ v ∈ m.Vertices,
      0 ≤ v.MaterialIndex ∧ v.MaterialIndex < (m.Materials.length : Int)) :
    (∀ v' ∈ (assemble wrap models).vertices,
      0 ≤ v'.MaterialIndex ∧
        v'.MaterialIndex < ((assemble wrap models).materials.length : Int)) ∧
    ∀ (i k : Nat) (mi : Model) (v : Vertex),
      models[i]? = some mi → mi.Vertices[k]? = some v →
      ∃ v' mat, (assemble wrap models).vertices[vertexCount (models.take i) + k]? = some v' ∧
        mi.Materials[v.MaterialIndex.toNat]? = some mat ∧
        (assemble wrap models).materials[v'.MaterialIndex.toNat]? = some mat := by
  constructor
  · rw [assemble_materials_length]
    exact assemble_vertices_valid wrap models hv hm hw hvalid
  · intro i k mi v hi hk
    have hmi : mi ∈ models := List.getElem?_mem hi
    have hvm : v ∈ mi.Vertices := List.getElem?_mem hk
    obtain ⟨h0, h1⟩ := hvalid mi hmi v hvm
    have hj : v.MaterialIndex.toNat < mi.Materials.length := by omega
    have hle := materialCount_take_le models i
    have hilen : i < models.length := by
      by_contra hc
      rw [List.getElem?_eq_none (by omega)] at hi
      exact Option.noConfusion hi
    have hsum : materialCount (models.take i) + mi.Materials.length ≤ materialCount models := by
      have h2 := materialCount_take_le models (i + 1)
      rw [List.take_succ, hi, Option.toList, materialCount_snoc] at h2
      exact h2
    refine ⟨_, mi.Materials[v.MaterialIndex.toNat], assemble_vertices_getElem? wrap models hv
      i k mi v hi hk, List.getElem?_eq_getElem hj, ?_⟩
    have hidx : (addMaterialOffset wrap (toUInt32 (materialCount (models.take i))) v).MaterialIndex
        = v.MaterialIndex + (materialCount (models.take i) : Int) := by
      show wrap (v.MaterialIndex + ((toUInt32 (materialCount (models.take i)) : Nat) : Int)) = _
      rw [toUInt32_of_lt (by omega), hw _ (by omega) (by omega)]
    rw [hidx]
    have hnat : (v.MaterialIndex + (materialCount (models.take i) : Int)).toNat =
        materialCount (models.take i) + v.MaterialIndex.toNat := by omega
    rw [hnat, assemble_materials_getElem? wrap models i _ mi hi hj,
      List.getElem?_eq_getElem hj]

/-- C5 (amended) at models A and B with a signed 32-bit index field. -/
theorem C5_material_lookup_witness :
    (∀ v' ∈ (assemble wrapInt32 [modelA, modelB]).vertices,
      0 ≤ v'.MaterialIndex ∧
        v'.MaterialIndex < ((assemble wrapInt32 [modelA, modelB]).materials.length : Int)) ∧
    ∃ v' mat, (assemble wrapInt32 [modelA, modelB]).vertices[
        vertexCount ([modelA, modelB].take 1) + 1]? = some v' ∧
      modelB.Materials[(sampleVertex 1).MaterialIndex.toNat]? = some mat ∧
      (assemble wrapInt32 [modelA, modelB]).materials[v'.MaterialIndex.toNat]? = some mat := by
  have h := C5_material_lookup wrapInt32 [modelA, modelB] (by decide) (by decide)
    (by
      intro z h0 h1
      have h3 : (materialCount [modelA, modelB] : Int) = 3 := by decide
      rw [h3] at h1
      unfold wrapInt32
      omega)
    (by decide)
  exact ⟨h.1, h.2 1 1 modelB (sampleVertex 1) rfl rfl⟩

/-- C6: the AABB array and the procedural-parameter array have one entry per
model, and at the position of a model without procedural shape both entries
have all components zero. -/
theorem C6_sentinels (wrap : Int → Int) (models : List Model) :
    (assemble wrap models).aabbs.length = models.length ∧
    (assemble wrap models).procedurals.length = models.length ∧
    ∀ (i : Nat) (mi : Model), models[i]? = some mi → mi.Procedural = none →
      (assemble wrap models).aabbs[i]? =
        some { minX := 0, minY := 0, minZ := 0, maxX := 0, maxY := 0, maxZ := 0 } ∧
      (assemble wrap models).procedurals[i]? = some { x := 0, y := 0, z := 0, w := 0 } := by
  rw [assemble_aabbs, assemble_procedurals]
  refine ⟨List.length_map _ _, List.length_map _ _, ?_⟩
  intro i mi hi hp
  rw [List.getElem?_map, List.getElem?_map, hi]
  simp [aabbEntry, proceduralEntry, hp, dynamicCastSphere, VkAabbPositionsKHR.zero, Vec4.zero]

/-- C6 at models A and B: model A, at position 0, has no procedural shape. -/
theorem C6_sentinels_witness :
    (assemble wrapInt32 [modelA, modelB]).aabbs[0]? =
        some { minX := 0, minY := 0, minZ := 0, maxX := 0, maxY := 0, maxZ := 0 } ∧
      (assemble wrapInt32 [modelA, modelB]).procedurals[0]? =
        some { x := 0, y := 0, z := 0, w := 0 } :=
  (C6_sentinels wrapInt32 [modelA, modelB]).2.2 0 modelA rfl rfl

/-- C7, as stated, fails: a model whose procedural shape is present but is not
a sphere gets the zero entry, not the bounding volume of its shape. -/
theorem C7_procedural_counterexample :
    boxModel.Procedural =
        some (Procedural.other ({ x := 1, y := 1, z := 1 }, { x := 2, y := 2, z := 2 })) ∧
      (assemble wrapInt32 [boxModel]).aabbs[0]? = some VkAabbPositionsKHR.zero ∧
      VkAabbPositionsKHR.zero ≠
        { minX := 1, minY := 1, minZ := 1, maxX := 2, maxY := 2, maxZ := 2 } := by
  refine ⟨rfl, rfl, ?_⟩
  decide

/-- C7 (amended): for every model whose procedural shape is a sphere, the entry
at the model's position in the AABB array is the sphere's bounding volume (min
corner x,y,z followed by max corner x,y,z) and the entry at that position in
the procedural-parameter array is the sphere's center and radius; for a model
whose procedural shape is of any other kind both entries are zero. -/
theorem C7_procedural (wrap : Int → Int) (models : List Model) (i : Nat) (mi : Model)
    (hi : models[i]? = some mi) :
    (∀ s : Sphere, mi.Procedural = some (Procedural.sphere s) →
      (assemble wrap models).aabbs[i]? =
        some { minX := s.BoundingBox.1.x, minY := s.BoundingBox.1.y, minZ := s.BoundingBox.1.z,
               maxX := s.BoundingBox.2.x, maxY := s.BoundingBox.2.y, maxZ := s.BoundingBox.2.z } ∧
      (assemble wrap models).procedurals[i]? =
        some { x := s.Center.x, y := s.Center.y, z := s.Center.z, w := s.Radius }) ∧
    (∀ b : Vec3 × Vec3, mi.Procedural = some (Procedural.other b) →
      (assemble wrap models).aabbs[i]? = some VkAabbPositionsKHR.zero ∧
      (assemble wrap models).procedurals[i]? = some Vec4.zero) := by
  rw [assemble_aabbs, assemble_procedurals, List.getElem?_map, List.getElem?_map, hi]
  constructor
  · intro s hs
    simp [aabbEntry, proceduralEntry, hs, dynamicCastSphere]
  · intro b hb
    simp [aabbEntry, proceduralEntry, hb, dynamicCastSphere]

/-- C7 (amended) at models A and B: model B, at position 1, has the unit sphere. -/
theorem C7_procedural_witness :
    (assemble wrapInt32 [modelA, modelB]).aabbs[1]? =
        some { minX := -1, minY := -1, minZ := -1, maxX := 1, maxY := 1, maxZ := 1 } ∧
      (assemble wrapInt32 [modelA, modelB]).procedurals[1]? =
        some { x := 0, y := 0, z := 0, w := 1 } :=
  (C7_procedural wrapInt32 [modelA, modelB] 1 modelB rfl).1 unitSphere rfl


/-! ## The thread swizzle loop -/

/-- With more fuel than entries left, the loop leaves by its condition and has
stored `value thread_id` at every position from `thread_id` on. -/
theorem fillThreadSwizzle_append (value : Nat → Nat) :
    ∀ (rest pre : List Nat) (fuel : Nat), (pre ++ rest).length < 2 ^ 32 → rest.length < fuel →
      fillThreadSwizzle value fuel pre.length (pre ++ rest) =
        some (pre ++ (List.range' pre.length rest.length).map value) := by
  intro rest
  induction rest with
  | nil =>
    intro pre fuel _ hfuel
    obtain ⟨f, rfl⟩ : ∃ f, fuel = f + 1 := ⟨fuel - 1, by simp at hfuel; omega⟩
    simp [fillThreadSwizzle]
  | cons a rest ih =>
    intro pre fuel hlen hfuel
    obtain ⟨f, rfl⟩ : ∃ f, fuel = f + 1 := ⟨fuel - 1, by omega⟩
    have hcond : pre.length < (pre ++ a :: rest).length := by simp
    have hnext : toUInt32 (pre.length + 1) = (pre ++ [value pre.length]).length := by
      rw [List.length_append, List.length_singleton]
      apply toUInt32_of_lt
      rw [List.length_append, List.length_cons] at hlen
      omega
    have hset : (pre ++ a :: rest).set pre.length (value pre.length) =
        (pre ++ [value pre.length]) ++ rest := by
      rw [List.set_append_right _ _ (Nat.le_refl _)]
      simp
    rw [fillThreadSwizzle, if_pos hcond, hnext, hset,
      ih (pre ++ [value pre.length]) f (by simpa using hlen) (by simpa using hfuel)]
    simp [List.range'_succ]

/-- The table built from a zero-filled array of `n` entries. -/
theorem fillThreadSwizzle_replicate (value : Nat → Nat) (n fuel : Nat) (hn : n < 2 ^ 32)
    (hfuel : n < fuel) :
    fillThreadSwizzle value fuel 0 (List.replicate n 0) = some ((List.range n).map value) := by
  have h := fillThreadSwizzle_append value (List.replicate n 0) [] fuel
    (by rw [List.nil_append, List.length_replicate]; exact hn)
    (by rw [List.length_replicate]; exact hfuel)
  rw [List.nil_append, List.length_nil, List.length_replicate, List.nil_append] at h
  rw [h, List.range_eq_range']

theorem frameSize_eq : frameSize = 921600 := by
  unfold frameSize
  norm_num

theorem frameSize_lt : frameSize < 2 ^ 32 := by
  rw [frameSize_eq]
  norm_num

theorem buildThreadSwizzle_identity (fuel : Nat) (hfuel : frameSize < fuel) :
    buildThreadSwizzle SwizzleStrategy.identity fuel = some (List.range frameSize) := by
  show fillThreadSwizzle (fun thread_id => thread_id) fuel 0 (List.replicate frameSize 0) = _
  rw [fillThreadSwizzle_replicate _ _ _ frameSize_lt hfuel, List.map_id']

theorem buildThreadSwizzle_external (file : Nat → Nat) (fuel : Nat) (hfuel : frameSize < fuel) :
    buildThreadSwizzle (SwizzleStrategy.external (some file)) fuel =
      some ((List.range frameSize).map (fun thread_id => toUInt32 (file thread_id))) := by
  show fillThreadSwizzle (fun thread_id => toUInt32 (file thread_id)) fuel 0
    (List.replicate frameSize 0) = _
  rw [fillThreadSwizzle_replicate _ _ _ frameSize_lt hfuel]


/-- C8: with the identity strategy the loop terminates and the table has
`1280 * 720 = 921600` entries with `threadSwizzle[i] = i` for every `i` below
921600. -/
theorem C8_identity_swizzle (fuel : Nat) (hfuel : frameSize < fuel) :
    ∃ threadSwizzle, buildThreadSwizzle SwizzleStrategy.identity fuel = some threadSwizzle ∧
      threadSwizzle.length = 1280 * 720 ∧ threadSwizzle.length = 921600 ∧
      ∀ i, i < 921600 → threadSwizzle[i]? = some i := by
  refine ⟨List.range frameSize, buildThreadSwizzle_identity fuel hfuel, ?_, ?_, ?_⟩
  · rw [List.length_range]; rfl
  · rw [List.length_range]; exact frameSize_eq
  · intro i hi
    exact List.getElem?_range (by rw [frameSize_eq]; exact hi)

/-- C8 with 921601 condition tests allowed, and entry 5 of the table. -/
theorem C8_identity_swizzle_witness :
    frameSize < 921601 ∧
      ∃ threadSwizzle,
        buildThreadSwizzle SwizzleStrategy.identity 921601 = some threadSwizzle ∧
        threadSwizzle.length = 921600 ∧ threadSwizzle[5]? = some 5 := by
  have hfuel : frameSize < 921601 := by rw [frameSize_eq]; norm_num
  obtain ⟨t, h1, _, h3, h4⟩ := C8_identity_swizzle 921601 hfuel
  exact ⟨hfuel, t, h1, h3, h4 5 (by norm_num)⟩

/-- C9, as stated, fails: with externally supplied data from a source that
opens and yields the value 0 at every read, the table holds 0 at positions 0
and 1, so a value occurs twice. -/
theorem C9_swizzle_bijection_counterexample :
    ∃ threadSwizzle,
      buildThreadSwizzle (SwizzleStrategy.external (some (fun _ => 0))) 921601 =
        some threadSwizzle ∧
      threadSwizzle[0]? = some 0 ∧ threadSwizzle[1]? = some 0 ∧ ¬ threadSwizzle.Nodup := by
  have hfuel : frameSize < 921601 := by rw [frameSize_eq]; norm_num
  have h0 : (0 : Nat) < frameSize := by rw [frameSize_eq]; norm_num
  have h1 : (1 : Nat) < frameSize := by rw [frameSize_eq]; norm_num
  have e0 : ((List.range frameSize).map (fun _ => toUInt32 0))[0]? = some 0 := by
    rw [List.getElem?_map, List.getElem?_range h0]
    rfl
  have e1 : ((List.range frameSize).map (fun _ => toUInt32 0))[1]? = some 0 := by
    rw [List.getElem?_map, List.getElem?_range h1]
    rfl
  refine ⟨_, buildThreadSwizzle_external (fun _ => 0) 921601 hfuel, e0, e1, ?_⟩
  intro hnodup
  refine List.nodup_iff_getElem?_ne_getElem?.mp hnodup 0 1 (by norm_num) ?_ (e0.trans e1.symm)
  rw [List.length_map, List.length_range]
  exact h1

/-- C9 (amended): with the identity strategy the table is a bijection onto
`[0, W*H)`: it has `W*H` entries, every entry is below `W*H` and no value occurs
twice.  With externally supplied data from a source that opens, the table has
these properties whenever the `W*H` values read from the source are themselves
below `W*H` and pairwise distinct; entry `i` is then the value read for `i`, and
the constructor does not check the values. -/
theorem C9_swizzle_bijection (fuel : Nat) (hfuel : frameSize < fuel) :
    (∃ threadSwizzle, buildThreadSwizzle SwizzleStrategy.identity fuel = some threadSwizzle ∧
      threadSwizzle.length = frameSize ∧ (∀ x ∈ threadSwizzle, x < frameSize) ∧
      threadSwizzle.Nodup) ∧
    ∀ file : Nat → Nat,
      (∀ k, k < frameSize → file k < frameSize) →
      (∀ j k, j < frameSize → k < frameSize → file j = file k → j = k) →
      ∃ threadSwizzle,
        buildThreadSwizzle (SwizzleStrategy.external (some file)) fuel = some threadSwizzle ∧
        threadSwizzle.length = frameSize ∧
        (∀ i, i < frameSize → threadSwizzle[i]? = some (file i)) ∧
        (∀ x ∈ threadSwizzle, x < frameSize) ∧ threadSwizzle.Nodup := by
  constructor
  · refine ⟨List.range frameSize, buildThreadSwizzle_identity fuel hfuel, List.length_range _,
      ?_, List.nodup_range _⟩
    intro x hx
    exact List.mem_range.mp hx
  · intro file hlt hinj
    have hval : ∀ k, k < frameSize → toUInt32 (file k) = file k := fun k hk =>
      toUInt32_of_lt (Nat.lt_trans (hlt k hk) frameSize_lt)
    refine ⟨_, buildThreadSwizzle_external file fuel hfuel, ?_, ?_, ?_, ?_⟩
    · rw [List.length_map, List.length_range]
    · intro i hi
      rw [List.getElem?_map, List.getElem?_range hi, Option.map_some', hval i hi]
    · intro x hx
      rw [List.mem_map] at hx
      obtain ⟨k, hk, rfl⟩ := hx
      rw [List.mem_range] at hk
      rw [hval k hk]
      exact hlt k hk
    · apply List.Nodup.map_on _ (List.nodup_range _)
      intro j hj k hk hjk
      rw [List.mem_range] at hj hk
      rw [hval j hj, hval k hk] at hjk
      exact hinj j k hj hk hjk

/-- C9 (amended) with 921601 condition tests allowed and, as external data, the
values 0, 1, 2, ... in this order. -/
theorem C9_swizzle_bijection_witness :
    frameSize < 921601 ∧
    (∃ threadSwizzle,
      buildThreadSwizzle SwizzleStrategy.identity 921601 = some threadSwizzle ∧
      threadSwizzle.length = frameSize ∧ (∀ x ∈ threadSwizzle, x < frameSize) ∧
      threadSwizzle.Nodup) ∧
    ∃ threadSwizzle,
      buildThreadSwizzle (SwizzleStrategy.external (some (fun k => k))) 921601 =
        some threadSwizzle ∧
      threadSwizzle.length = frameSize ∧
      (∀ i, i < frameSize → threadSwizzle[i]? = some i) ∧
      (∀ x ∈ threadSwizzle, x < frameSize) ∧ threadSwizzle.Nodup := by
  have hfuel : frameSize < 921601 := by rw [frameSize_eq]; norm_num
  have h := C9_swizzle_bijection 921601 hfuel
  exact ⟨hfuel, h.1, h.2 (fun k => k) (fun _ hk => hk) (fun _ _ _ _ hjk => hjk)⟩

/-- C10: the destructor releases every member once, and for each of the seven
buffer categories the release of the buffer handle comes strictly before the
release of the backing memory handle. -/
theorem C10_buffer_before_memory :
    destructorReleases.Nodup ∧
    ∀ c : BufferCategory, ∃ i j : Nat, i < j ∧
      destructorReleases[i]? = some c.buffer ∧ destructorReleases[j]? = some c.memory := by
  constructor
  · decide
  · intro c
    cases c
    · exact ⟨15, 16, by decide, rfl, rfl⟩
    · exact ⟨13, 14, by decide, rfl, rfl⟩
    · exact ⟨11, 12, by decide, rfl, rfl⟩
    · exact ⟨9, 10, by decide, rfl, rfl⟩
    · exact ⟨7, 8, by decide, rfl, rfl⟩
    · exact ⟨5, 6, by decide, rfl, rfl⟩
    · exact ⟨3, 4, by decide, rfl, rfl⟩


/-- C11: the destructor releases the resource categories in the exact reverse
of the order in which the constructor acquires them.  The constructor acquires
the vertex, index, material, offset, AABB, procedural and thread-swizzle buffers
and then the textures; the destructor first releases the textures (sampler
handles, view handles, images) and then the buffers in the order swizzle,
procedural, AABB, offset, material, index, vertex. -/
theorem C11_reverse_order (usedForRayTracing : Bool) :
    destructorCategories = (constructorAcquires usedForRayTracing).reverse ∧
    constructorAcquires usedForRayTracing =
      [ ResourceCategory.buffer BufferCategory.vertex,
        ResourceCategory.buffer BufferCategory.index,
        ResourceCategory.buffer BufferCategory.material,
        ResourceCategory.buffer BufferCategory.offset,
        ResourceCategory.buffer BufferCategory.aabb,
        ResourceCategory.buffer BufferCategory.procedural,
        ResourceCategory.buffer BufferCategory.threadSwizzle,
        ResourceCategory.texture ] ∧
    destructorReleases.take 3 =
      [Member.textureSamplerHandles, Member.textureImageViewHandles, Member.textureImages] ∧
    ((destructorReleases.drop 3).map Member.category).destutter (fun a b => a ≠ b) =
      [ ResourceCategory.buffer BufferCategory.threadSwizzle,
        ResourceCategory.buffer BufferCategory.procedural,
        ResourceCategory.buffer BufferCategory.aabb,
        ResourceCategory.buffer BufferCategory.offset,
        ResourceCategory.buffer BufferCategory.material,
        ResourceCategory.buffer BufferCategory.index,
        ResourceCategory.buffer BufferCategory.vertex ] := by
  cases usedForRayTracing <;> decide

/-- C12: for a model A with 3 vertices, 3 indices, 1 material and no procedural
shape, followed by a model B with 4 vertices, 6 indices, 2 materials, a vertex
with pre-merge material index 1 and a sphere with center (0,0,0) and radius 1,
the constructor builds 7 vertices, 9 indices and 3 materials, the offsets
[(0,0), (3,3)], material index 2 for that vertex of B, zero entries at position
0 of the AABB and procedural arrays, and at position 1 the sphere's bounding
box and (center, radius). -/
theorem C12_scenario (wrap : Int → Int) (A B : Model) (s : Sphere) (k : Nat) (v : Vertex)
    (hw : wrap 2 = 2)
    (hA1 : A.Vertices.length = 3) (hA2 : A.Indices.length = 3) (hA3 : A.Materials.length = 1)
    (hA4 : A.Procedural = none)
    (hB1 : B.Vertices.length = 4) (hB2 : B.Indices.length = 6) (hB3 : B.Materials.length = 2)
    (hB4 : B.Procedural = some (Procedural.sphere s))
    (hc : s.Center = { x := 0, y := 0, z := 0 }) (hr : s.Radius = 1)
    (hk : B.Vertices[k]? = some v) (hm : v.MaterialIndex = 1) :
    (assemble wrap [A, B]).vertices.length = 7 ∧
    (assemble wrap [A, B]).indices.length = 9 ∧
    (assemble wrap [A, B]).materials.length = 3 ∧
    (assemble wrap [A, B]).offsets = [{ x := 0, y := 0 }, { x := 3, y := 3 }] ∧
    (∃ v', (assemble wrap [A, B]).vertices[3 + k]? = some v' ∧ v'.MaterialIndex = 2) ∧
    (assemble wrap [A, B]).aabbs[0]? =
      some { minX := 0, minY := 0, minZ := 0, maxX := 0, maxY := 0, maxZ := 0 } ∧
    (assemble wrap [A, B]).procedurals[0]? = some { x := 0, y := 0, z := 0, w := 0 } ∧
    (assemble wrap [A, B]).aabbs[1]? =
      some { minX := s.BoundingBox.1.x, minY := s.BoundingBox.1.y, minZ := s.BoundingBox.1.z,
             maxX := s.BoundingBox.2.x, maxY := s.BoundingBox.2.y, maxZ := s.BoundingBox.2.z } ∧
    (assemble wrap [A, B]).procedurals[1]? = some { x := 0, y := 0, z := 0, w := 1 } := by
  have hvc : vertexCount [A, B] = 7 := by simp [vertexCount, hA1, hB1]
  have hic : indexCount [A, B] = 9 := by simp [indexCount, hA2, hB2]
  have hmc : materialCount [A, B] = 3 := by simp [materialCount, hA3, hB3]
  have hvA : vertexCount ([A, B].take 1) = 3 := by simp [vertexCount, hA1]
  have hiA : indexCount ([A, B].take 1) = 3 := by simp [indexCount, hA2]
  have hmA : materialCount ([A, B].take 1) = 1 := by simp [materialCount, hA3]
  have hlt : vertexCount [A, B] < 2 ^ 32 := by rw [hvc]; norm_num
  refine ⟨?_, ?_, ?_, ?_, ?_, ?_, ?_, ?_, ?_⟩
  · rw [assemble_vertices_length, hvc]
  · rw [assemble_indices_length, hic]
  · rw [assemble_materials_length, hmc]
  · apply List.ext_getElem?
    intro n
    by_cases h2 : n < 2
    · rw [assemble_offsets_getElem? wrap [A, B] n h2]
      have hn : n = 0 ∨ n = 1 := by omega
      rcases hn with rfl | rfl
      · rfl
      · rw [hiA, hvA]
        rfl
    · rw [List.getElem?_eq_none (by rw [assemble_offsets_length]; simpa using h2),
        List.getElem?_eq_none (by simpa using h2)]
  · have h := assemble_vertices_getElem? wrap [A, B] hlt 1 k B v rfl hk
    rw [hvA, hmA] at h
    refine ⟨_, h, ?_⟩
    show wrap (v.MaterialIndex + ((toUInt32 1 : Nat) : Int)) = 2
    rw [hm]
    exact hw
  · rw [assemble_aabbs]
    simp [aabbEntry, hA4, dynamicCastSphere, VkAabbPositionsKHR.zero]
  · rw [assemble_procedurals]
    simp [proceduralEntry, hA4, dynamicCastSphere, Vec4.zero]
  · rw [assemble_aabbs]
    simp [aabbEntry, hB4, dynamicCastSphere]
  · rw [assemble_procedurals]
    simp [proceduralEntry, hB4, dynamicCastSphere, hc, hr]

/-- C12 at the sample models A and B with a signed 32-bit index field. -/
theorem C12_scenario_witness :
    (assemble wrapInt32 [modelA, modelB]).vertices.length = 7 ∧
    (assemble wrapInt32 [modelA, modelB]).indices.length = 9 ∧
    (assemble wrapInt32 [modelA, modelB]).materials.length = 3 ∧
    (assemble wrapInt32 [modelA, modelB]).offsets = [{ x := 0, y := 0 }, { x := 3, y := 3 }] ∧
    (∃ v', (assemble wrapInt32 [modelA, modelB]).vertices[3 + 1]? = some v' ∧
      v'.MaterialIndex = 2) ∧
    (assemble wrapInt32 [modelA, modelB]).aabbs[0]? =
      some { minX := 0, minY := 0, minZ := 0, maxX := 0, maxY := 0, maxZ := 0 } ∧
    (assemble wrapInt32 [modelA, modelB]).procedurals[0]? =
      some { x := 0, y := 0, z := 0, w := 0 } ∧
    (assemble wrapInt32 [modelA, modelB]).aabbs[1]? =
      some { minX := -1, minY := -1, minZ := -1, maxX := 1, maxY := 1, maxZ := 1 } ∧
    (assemble wrapInt32 [modelA, modelB]).procedurals[1]? =
      some { x := 0, y := 0, z := 0, w := 1 } :=
  C12_scenario wrapInt32 modelA modelB unitSphere 1 (sampleVertex 1) (by decide)
    rfl rfl rfl rfl rfl rfl rfl rfl rfl rfl rfl rfl

/-- C13: for the empty model sequence the combined vertex, index and material
arrays and the offset, AABB and procedural arrays are all empty; the assembly
is a total function and has no error result. -/
theorem C13_empty (wrap : Int → Int) :
    (assemble wrap []).vertices = [] ∧ (assemble wrap []).indices = [] ∧
    (assemble wrap []).materials = [] ∧ (assemble wrap []).offsets = [] ∧
    (assemble wrap []).aabbs = [] ∧ (assemble wrap []).procedurals = [] :=
  ⟨rfl, rfl, rfl, rfl, rfl, rfl⟩

/-- C14: each of the seven buffer uploads passes a usage value that contains the
storage-buffer bit and the shader-device-address bit exactly when
`usedForRayTracing` is true; when it is false the value is the vertex-buffer
bit alone for the vertex upload, the index-buffer bit alone for the index
upload and zero for the other five. -/
theorem C14_usage_flags (usedForRayTracing : Bool) :
    ((deviceBufferUploads usedForRayTracing).map (fun upload => upload.1) =
      [ BufferCategory.vertex, BufferCategory.index, BufferCategory.material,
        BufferCategory.offset, BufferCategory.aabb, BufferCategory.procedural,
        BufferCategory.threadSwizzle ]) ∧
    (∀ upload ∈ deviceBufferUploads usedForRayTracing,
      (containsBit upload.2 VK_BUFFER_USAGE_STORAGE_BUFFER_BIT ∧
        containsBit upload.2 VK_BUFFER_USAGE_SHADER_DEVICE_ADDRESS_BIT) ↔
        usedForRayTracing = true) ∧
    (usedForRayTracing = false →
      deviceBufferUploads usedForRayTracing =
        [ (BufferCategory.vertex, VK_BUFFER_USAGE_VERTEX_BUFFER_BIT),
          (BufferCategory.index, VK_BUFFER_USAGE_INDEX_BUFFER_BIT),
          (BufferCategory.material, 0), (BufferCategory.offset, 0), (BufferCategory.aabb, 0),
          (BufferCategory.procedural, 0), (BufferCategory.threadSwizzle, 0) ]) := by
  cases usedForRayTracing <;> decide

/-- C14 with `usedForRayTracing` false. -/
theorem C14_usage_flags_witness :
    deviceBufferUploads false =
      [ (BufferCategory.vertex, VK_BUFFER_USAGE_VERTEX_BUFFER_BIT),
        (BufferCategory.index, VK_BUFFER_USAGE_INDEX_BUFFER_BIT),
        (BufferCategory.material, 0), (BufferCategory.offset, 0), (BufferCategory.aabb, 0),
        (BufferCategory.procedural, 0), (BufferCategory.threadSwizzle, 0) ] :=
  (C14_usage_flags false).2.2 rfl

/-! ## Texture loop -/

theorem uploadedImages_length {σ : Type} (f : σ → Texture → σ × TextureImage) :
    ∀ (textures : List Texture) (device : σ),
      (uploadedImages f device textures).length = textures.length := by
  intro textures
  induction textures with
  | nil => intro device; rfl
  | cons t rest ih => intro device; simp [uploadedImages, ih]

/-- The loop, entered at position `done.length` with the images of the textures
`done` already built, appends the images of the remaining textures and stores
their handles over the remaining null handles. -/
theorem uploadTexturesLoop_append {σ : Type} (f : σ → Texture → σ × TextureImage) :
    ∀ (rest done : List Texture) (device : σ) (images : List TextureImage)
      (views viewsRest samplers samplersRest : List Nat),
      images.length = done.length → views.length = done.length →
      samplers.length = done.length → viewsRest.length = rest.length →
      samplersRest.length = rest.length →
      (uploadTexturesLoop f (done ++ rest) rest.length done.length
        (device,
          { textureImages := images
            textureImageViewHandles := views ++ viewsRest
            textureSamplerHandles := samplers ++ samplersRest })).2 =
        { textureImages := images ++ uploadedImages f device rest
          textureImageViewHandles :=
            views ++ (uploadedImages f device rest).map (fun image => image.ImageView)
          textureSamplerHandles :=
            samplers ++ (uploadedImages f device rest).map (fun image => image.Sampler) } := by
  intro rest
  induction rest with
  | nil =>
    intro done device images views viewsRest samplers samplersRest _ _ _ hv hs
    rw [List.length_eq_zero.mp hv, List.length_eq_zero.mp hs]
    simp [uploadTexturesLoop, uploadedImages]
  | cons t rest ih =>
    intro done device images views viewsRest samplers samplersRest hi hvl hsl hv hs
    obtain ⟨v0, viewsRest, rfl⟩ := List.exists_cons_of_length_eq_add_one hv
    obtain ⟨s0, samplersRest, rfl⟩ := List.exists_cons_of_length_eq_add_one hs
    have htex : (done ++ t :: rest)[done.length]? = some t := by
      rw [List.getElem?_append_right (Nat.le_refl _)]
      simp
    have himg : (images ++ [(f device t).2])[done.length]? = some (f device t).2 := by
      rw [List.getElem?_append_right (by omega), hi]
      simp
    have hsetv : ∀ x, (views ++ v0 :: viewsRest).set done.length x =
        (views ++ [x]) ++ viewsRest := by
      intro x
      rw [List.set_append_right _ _ (by omega), hvl]
      simp
    have hsets : ∀ x, (samplers ++ s0 :: samplersRest).set done.length x =
        (samplers ++ [x]) ++ samplersRest := by
      intro x
      rw [List.set_append_right _ _ (by omega), hsl]
      simp
    have hsplit : done ++ t :: rest = (done ++ [t]) ++ rest := by simp
    have hnext : done.length + 1 = (done ++ [t]).length := by simp
    rw [List.length_cons, uploadTexturesLoop, htex]
    simp only [himg, hsetv, hsets, Option.map_some', Option.getD_some]
    rw [hsplit, hnext, ih (done ++ [t]) (f device t).1 (images ++ [(f device t).2])
      (views ++ [(f device t).2.ImageView]) viewsRest
      (samplers ++ [(f device t).2.Sampler]) samplersRest
      (by simp [hi]) (by simp [hvl]) (by simp [hsl]) (by simpa using hv) (by simpa using hs)]
    simp [uploadedImages]

/-- The texture members after the constructor's texture loop. -/
theorem uploadTextures_eq {σ : Type} (f : σ → Texture → σ × TextureImage) (device : σ)
    (textures : List Texture) :
    (uploadTextures f device textures).2 =
      { textureImages := uploadedImages f device textures
        textureImageViewHandles :=
          (uploadedImages f device textures).map (fun image => image.ImageView)
        textureSamplerHandles :=
          (uploadedImages f device textures).map (fun image => image.Sampler) } := by
  have h := uploadTexturesLoop_append f textures [] device [] [] (List.replicate textures.length 0)
    [] (List.replicate textures.length 0) rfl rfl rfl (List.length_replicate _ _)
    (List.length_replicate _ _)
  simpa [uploadTextures] using h

/-- C15: the image-view handle array and the sampler handle array have the
length of the input texture sequence, and entry `i` of each is the view handle
and the sampler handle of the image uploaded from input texture `i`, which is
entry `i` of the image array. -/
theorem C15_texture_handles {σ : Type} (newTextureImage : σ → Texture → σ × TextureImage)
    (device : σ) (textures : List Texture) :
    (uploadTextures newTextureImage device textures).2.textureImageViewHandles.length =
      textures.length ∧
    (uploadTextures newTextureImage device textures).2.textureSamplerHandles.length =
      textures.length ∧
    ∀ i, i < textures.length →
      ∃ image, (uploadedImages newTextureImage device textures)[i]? = some image ∧
        (uploadTextures newTextureImage device textures).2.textureImages[i]? = some image ∧
        (uploadTextures newTextureImage device textures).2.textureImageViewHandles[i]? =
          some image.ImageView ∧
        (uploadTextures newTextureImage device textures).2.textureSamplerHandles[i]? =
          some image.Sampler := by
  rw [uploadTextures_eq]
  refine ⟨?_, ?_, ?_⟩
  · simp [uploadedImages_length]
  · simp [uploadedImages_length]
  · intro i hi
    have hlen : i < (uploadedImages newTextureImage device textures).length := by
      rw [uploadedImages_length]; exact hi
    refine ⟨(uploadedImages newTextureImage device textures)[i], ?_, ?_, ?_, ?_⟩
    · exact List.getElem?_eq_getElem hlen
    · exact List.getElem?_eq_getElem hlen
    · simp [List.getElem?_map, List.getElem?_eq_getElem hlen]
    · simp [List.getElem?_map, List.getElem?_eq_getElem hlen]

/-- C15 at two textures and a counting uploader: the second image has view
handle 5 and sampler handle 6. -/
theorem C15_texture_handles_witness :
    ∃ image, (uploadedImages countingUpload 0 sampleTextures)[1]? = some image ∧
      (uploadTextures countingUpload 0 sampleTextures).2.textureImages[1]? = some image ∧
      (uploadTextures countingUpload 0 sampleTextures).2.textureImageViewHandles[1]? =
        some image.ImageView ∧
      (uploadTextures countingUpload 0 sampleTextures).2.textureSamplerHandles[1]? =
        some image.Sampler ∧ image.ImageView = 5 ∧ image.Sampler = 6 := by
  obtain ⟨image, h1, h2, h3, h4⟩ :=
    (C15_texture_handles countingUpload 0 sampleTextures).2.2 1 (by decide)
  have himg : image = { Image := 4, ImageView := 5, Sampler := 6 } := by
    have h : (uploadedImages countingUpload 0 sampleTextures)[1]? =
        some { Image := 4, ImageView := 5, Sampler := 6 } := by decide
    rw [h] at h1
    exact (Option.some.inj h1).symm
  exact ⟨image, h1, h2, h3, h4, by rw [himg], by rw [himg]⟩

/-! ## Fields the material-index loop leaves alone -/

theorem addMaterialOffset_geometry (wrap : Int → Int) (off : Nat) (v : Vertex) :
    (addMaterialOffset wrap off v).geometry = v.geometry := rfl

theorem adjustMaterialIds_geometry (wrap : Int → Int) (off n i : Nat) (vs : List Vertex) :
    (adjustMaterialIds wrap off n i vs).map Vertex.geometry = vs.map Vertex.geometry := by
  apply List.ext_getElem?
  intro k
  rw [List.getElem?_map, List.getElem?_map, adjustMaterialIds_getElem?]
  by_cases h : i ≤ k ∧ k < i + n
  · rw [if_pos h]
    cases vs[k]? with
    | none => rfl
    | some v => rfl
  · rw [if_neg h]

/-- Position, normal and texture coordinate of the combined vertices are those
of the models' vertices in model order, for every model sequence. -/
theorem assemble_vertices_geometry (wrap : Int → Int) (models : List Model) :
    (assemble wrap models).vertices.map Vertex.geometry =
      ((models.map (fun m => m.Vertices)).flatten).map Vertex.geometry := by
  induction models using List.reverseRecOn with
  | nil => rfl
  | append_singleton xs m ih =>
    rw [assemble_snoc]
    show (adjustMaterialIds wrap _ _ _ ((assemble wrap xs).vertices ++ m.Vertices)).map
      Vertex.geometry = _
    rw [adjustMaterialIds_geometry, List.map_append, ih]
    simp

/-- C16: the combined material array is the concatenation, in model order, of
the models' material arrays, and the combined vertex array has, entry by entry,
the position, normal and texture coordinate of the concatenation, in model
order, of the models' vertex arrays. -/
theorem C16_concatenation (wrap : Int → Int) (models : List Model) :
    (assemble wrap models).materials = (models.map (fun m => m.Materials)).flatten ∧
    (assemble wrap models).vertices.length =
      ((models.map (fun m => m.Vertices)).flatten).length ∧
    ∀ i : Nat,
      ((assemble wrap models).vertices[i]?).map
          (fun v => (v.Position, v.Normal, v.TexCoord)) =
        (((models.map (fun m => m.Vertices)).flatten)[i]?).map
          (fun v => (v.Position, v.Normal, v.TexCoord)) := by
  have hg := assemble_vertices_geometry wrap models
  refine ⟨assemble_materials wrap models, ?_, ?_⟩
  · have h := congrArg List.length hg
    rw [List.length_map, List.length_map] at h
    exact h
  · intro i
    have h := congrArg (fun l => l[i]?) hg
    simp only [List.getElem?_map] at h
    exact h

/-- C17: with externally supplied data and a source that cannot be opened, the
constructor goes on and the table keeps the value it was allocated with, zero,
in each of its `1280 * 720` entries; it is not the identity table. -/
theorem C17_unopened_source (fuel : Nat) :
    ∃ threadSwizzle,
      buildThreadSwizzle (SwizzleStrategy.external none) fuel = some threadSwizzle ∧
      threadSwizzle.length = 1280 * 720 ∧
      (∀ i, i < 1280 * 720 → threadSwizzle[i]? = some 0) ∧
      threadSwizzle[1]? ≠ some 1 := by
  refine ⟨List.replicate frameSize 0, rfl, ?_, ?_, ?_⟩
  · rw [List.length_replicate]; rfl
  · intro i hi
    have hi2 : i < frameSize := hi
    rw [List.getElem?_replicate, if_pos hi2]
  · have h1 : (1 : Nat) < frameSize := by rw [frameSize_eq]; norm_num
    rw [List.getElem?_replicate, if_pos h1]
    intro h
    exact absurd (Option.some.inj h) (by norm_num)

/-- C17 with no condition test allowed, and entry 5 of the table. -/
theorem C17_unopened_source_witness :
    ∃ threadSwizzle,
      buildThreadSwizzle (SwizzleStrategy.external none) 0 = some threadSwizzle ∧
      threadSwizzle.length = 1280 * 720 ∧ threadSwizzle[5]? = some 0 := by
  obtain ⟨t, h1, h2, h3, _⟩ := C17_unopened_source 0
  exact ⟨t, h1, h2, h3 5 (by norm_num)⟩

/-! ## Slices of the combined arrays -/

theorem take_drop_eq_of_getElem? {α : Type} (big l : List α) (off : Nat)
    (h : ∀ j, j < l.length → big[off + j]? = l[j]?) :
    (big.drop off).take l.length = l := by
  apply List.ext_getElem?
  intro j
  rw [List.getElem?_take]
  by_cases hj : j < l.length
  · rw [if_pos hj, List.getElem?_drop, h j hj]
  · rw [if_neg hj, List.getElem?_eq_none (by omega)]

theorem assemble_indices_getElem? (wrap : Int → Int) (models : List Model) :
    ∀ (i j : Nat) (mi : Model), models[i]? = some mi → j < mi.Indices.length →
      (assemble wrap models).indices[indexCount (models.take i) + j]? = mi.Indices[j]? := by
  induction models using List.reverseRecOn with
  | nil => intro i j mi hi; simp at hi
  | append_singleton xs m ih =>
    intro i j mi hi hj
    have hsnoc : (assemble wrap (xs ++ [m])).indices =
        (assemble wrap xs).indices ++ m.Indices := by
      rw [assemble_snoc]; rfl
    rw [hsnoc]
    by_cases h : i < xs.length
    · rw [List.getElem?_append_left h] at hi
      rw [List.take_append_of_le_length (by omega)]
      have key := ih i j mi hi hj
      have hpos : indexCount (List.take i xs) + j < (assemble wrap xs).indices.length := by
        by_contra hc
        rw [List.getElem?_eq_none (by omega), List.getElem?_eq_getElem hj] at key
        exact Option.noConfusion key
      rw [List.getElem?_append_left hpos]
      exact key
    · have hilen : i < (xs ++ [m]).length := by
        by_contra hc
        rw [List.getElem?_eq_none (by omega)] at hi
        exact Option.noConfusion hi
      have hi2 : i = xs.length := by
        rw [List.length_append, List.length_singleton] at hilen
        omega
      subst hi2
      rw [List.getElem?_append_right (Nat.le_refl _)] at hi
      simp at hi
      subst hi
      have hlen := assemble_indices_length wrap xs
      rw [List.take_left, List.getElem?_append_right (by omega), hlen]
      simp

theorem indexCount_take_le (models : List Model) (i : Nat) :
    indexCount (models.take i) ≤ indexCount models := by
  induction models using List.reverseRecOn with
  | nil => simp
  | append_singleton xs m ih =>
    rw [indexCount_snoc]
    by_cases h : i ≤ xs.length
    · rw [List.take_append_of_le_length h]; omega
    · rw [List.take_of_length_le (by simp; omega), indexCount_snoc]

theorem vertexCount_take_le (models : List Model) (i : Nat) :
    vertexCount (models.take i) ≤ vertexCount models := by
  induction models using List.reverseRecOn with
  | nil => simp
  | append_singleton xs m ih =>
    rw [vertexCount_snoc]
    by_cases h : i ≤ xs.length
    · rw [List.take_append_of_le_length h]; omega
    · rw [List.take_of_length_le (by simp; omega), vertexCount_snoc]

/-- C18: when the total index count and the total vertex count are below
`2 ^ 32`, the slice of the combined index array that starts at the index offset
of model `i` and has the length of its index array is that index array; the
slice of the combined vertex array that starts at its vertex offset and has the
length of its vertex array holds its vertices, material index aside; and the
vertex offset plus an in-range model-local index is the position of the vertex
referred to in the combined vertex array. -/
theorem C18_offset_slices (wrap : Int → Int) (models : List Model)
    (hic : indexCount models < 2 ^ 32) (hvc : vertexCount models < 2 ^ 32)
    (i : Nat) (mi : Model) (hmi : models[i]? = some mi) :
    ∃ offset, (assemble wrap models).offsets[i]? = some offset ∧
      ((assemble wrap models).indices.drop offset.x).take mi.Indices.length = mi.Indices ∧
      (((assemble wrap models).vertices.drop offset.y).take mi.Vertices.length).map
          (fun v => (v.Position, v.Normal, v.TexCoord)) =
        mi.Vertices.map (fun v => (v.Position, v.Normal, v.TexCoord)) ∧
      ∀ (j index : Nat) (v : Vertex), mi.Indices[j]? = some index →
        mi.Vertices[index]? = some v →
        ∃ v', (assemble wrap models).vertices[offset.y + index]? = some v' ∧
          v'.Position = v.Position ∧ v'.Normal = v.Normal ∧ v'.TexCoord = v.TexCoord := by
  have hilen : i < models.length := by
    by_contra hc
    rw [List.getElem?_eq_none (by omega)] at hmi
    exact Option.noConfusion hmi
  have hoff := assemble_offsets_getElem? wrap models i hilen
  rw [toUInt32_of_lt (Nat.lt_of_le_of_lt (indexCount_take_le models i) hic),
    toUInt32_of_lt (Nat.lt_of_le_of_lt (vertexCount_take_le models i) hvc)] at hoff
  refine ⟨_, hoff, ?_, ?_, ?_⟩
  · exact take_drop_eq_of_getElem? _ _ _
      (fun j hj => assemble_indices_getElem? wrap models i j mi hmi hj)
  · have h := take_drop_eq_of_getElem? ((assemble wrap models).vertices.map Vertex.geometry)
      (mi.Vertices.map Vertex.geometry) (vertexCount (models.take i)) (by
        intro j hj
        rw [List.length_map] at hj
        rw [List.getElem?_map, List.getElem?_map,
          assemble_vertices_getElem? wrap models hvc i j mi _ hmi (List.getElem?_eq_getElem hj),
          List.getElem?_eq_getElem hj]
        rfl)
    rw [List.length_map, ← List.map_drop, ← List.map_take] at h
    exact h
  · intro j index v _ hv
    exact ⟨_, assemble_vertices_getElem? wrap models hvc i index mi v hmi hv, rfl, rfl, rfl⟩

/-- C18 at models A and B: the slices that belong to model B, and the vertex
that its index `3` refers to. -/
theorem C18_offset_slices_witness :
    ∃ offset, (assemble wrapInt32 [modelA, modelB]).offsets[1]? = some offset ∧
      ((assemble wrapInt32 [modelA, modelB]).indices.drop offset.x).take modelB.Indices.length =
        modelB.Indices ∧
      (((assemble wrapInt32 [modelA, modelB]).vertices.drop offset.y).take
          modelB.Vertices.length).map (fun v => (v.Position, v.Normal, v.TexCoord)) =
        modelB.Vertices.map (fun v => (v.Position, v.Normal, v.TexCoord)) ∧
      ∃ v', (assemble wrapInt32 [modelA, modelB]).vertices[offset.y + 3]? = some v' ∧
        v'.Position = (sampleVertex 0).Position := by
  obtain ⟨offset, h1, h2, h3, h4⟩ :=
    C18_offset_slices wrapInt32 [modelA, modelB] (by decide) (by decide) 1 modelB rfl
  obtain ⟨v', h5, h6, _, _⟩ := h4 4 3 (sampleVertex 0) rfl rfl
  exact ⟨offset, h1, h2, h3, v', h5, h6⟩

/-! ## Assembly of a concatenation -/

theorem indexCount_append (xs ys : List Model) :
    indexCount (xs ++ ys) = indexCount xs + indexCount ys := by
  simp [indexCount]

theorem vertexCount_append (xs ys : List Model) :
    vertexCount (xs ++ ys) = vertexCount xs + vertexCount ys := by
  simp [vertexCount]

theorem materialCount_append (xs ys : List Model) :
    materialCount (xs ++ ys) = materialCount xs + materialCount ys := by
  simp [materialCount]

theorem assemble_append_offsets (wrap : Int → Int) (xs : List Model) :
    ∀ ys : List Model, indexCount (xs ++ ys) < 2 ^ 32 → vertexCount (xs ++ ys) < 2 ^ 32 →
      (assemble wrap (xs ++ ys)).offsets =
        (assemble wrap xs).offsets ++
          (assemble wrap ys).offsets.map
            (fun o => { x := o.x + indexCount xs, y := o.y + vertexCount xs }) := by
  intro ys
  induction ys using List.reverseRecOn with
  | nil => intro _ _; simp [assemble, SceneArrays.empty]
  | append_singleton zs m ih =>
    intro hic hvc
    rw [← List.append_assoc, indexCount_snoc] at hic
    rw [← List.append_assoc, vertexCount_snoc] at hvc
    have hic2 := indexCount_append xs zs
    have hvc2 := vertexCount_append xs zs
    rw [← List.append_assoc, assemble_snoc_offsets, assemble_snoc_offsets,
      ih (by omega) (by omega), List.map_append, List.append_assoc,
      toUInt32_of_lt (show indexCount (xs ++ zs) < 2 ^ 32 by omega),
      toUInt32_of_lt (show vertexCount (xs ++ zs) < 2 ^ 32 by omega),
      toUInt32_of_lt (show indexCount zs < 2 ^ 32 by omega),
      toUInt32_of_lt (show vertexCount zs < 2 ^ 32 by omega), hic2, hvc2]
    simp [Nat.add_comm]

theorem assemble_append_vertices (wrap : Int → Int)
    (hw : ∀ a b : Int, wrap (wrap a + b) = wrap (a + b)) (xs : List Model) :
    ∀ ys : List Model, vertexCount (xs ++ ys) < 2 ^ 32 → materialCount (xs ++ ys) < 2 ^ 32 →
      (assemble wrap (xs ++ ys)).vertices =
        (assemble wrap xs).vertices ++
          (assemble wrap ys).vertices.map (addMaterialOffset wrap (materialCount xs)) := by
  intro ys
  induction ys using List.reverseRecOn with
  | nil => intro _ _; simp [assemble, SceneArrays.empty]
  | append_singleton zs m ih =>
    intro hvc hmc
    rw [← List.append_assoc, vertexCount_snoc] at hvc
    rw [← List.append_assoc, materialCount_snoc] at hmc
    have hvc2 := vertexCount_append xs zs
    have hmc2 := materialCount_append xs zs
    rw [← List.append_assoc, assemble_snoc_vertices wrap (xs ++ zs) m (by omega),
      assemble_snoc_vertices wrap zs m (by omega), ih (by omega) (by omega),
      List.map_append, List.append_assoc, List.map_map,
      toUInt32_of_lt (show materialCount (xs ++ zs) < 2 ^ 32 by omega),
      toUInt32_of_lt (show materialCount zs < 2 ^ 32 by omega), hmc2]
    congr 2
    apply List.map_congr_left
    intro v _
    have hidx : wrap (wrap (v.MaterialIndex + (materialCount zs : Int)) + (materialCount xs : Int)) =
        wrap (v.MaterialIndex + ((materialCount xs + materialCount zs : Nat) : Int)) := by
      rw [hw]
      congr 1
      push_cast
      ring
    show addMaterialOffset wrap (materialCount xs + materialCount zs) v =
      addMaterialOffset wrap (materialCount xs) (addMaterialOffset wrap (materialCount zs) v)
    simp only [addMaterialOffset, hidx]

theorem wrapInt32_add (a b : Int) : wrapInt32 (wrapInt32 a + b) = wrapInt32 (a + b) := by
  unfold wrapInt32
  omega

theorem wideIndexPrefix_count :
    indexCount wideIndexPrefix = 2 ^ 32 ∧ vertexCount wideIndexPrefix = 0 ∧
      indexCount ((wideIndexPrefix ++ emptySuffix).take 1) = 2 ^ 32 ∧
      vertexCount ((wideIndexPrefix ++ emptySuffix).take 1) = 0 := by
  refine ⟨?_, rfl, ?_, rfl⟩
  · unfold indexCount wideIndexPrefix
    simp only [List.map_cons, List.map_nil, List.sum_cons, List.sum_nil, List.length_replicate,
      Nat.add_zero]
  · unfold indexCount wideIndexPrefix emptySuffix
    simp only [List.cons_append, List.nil_append, List.take_succ_cons, List.take_zero,
      List.map_cons, List.map_nil, List.sum_cons, List.sum_nil, List.length_replicate,
      Nat.add_zero]

/-- C19, as stated, fails: for a model with `2 ^ 32` indices followed by an empty
model, the offset record of the second model is (0, 0), while the offsets of
the second sequence increased by the index and vertex counts of the first give
(`2 ^ 32`, 0) at that position. -/
theorem C19_compositional_counterexample :
    (assemble wrapInt32 (wideIndexPrefix ++ emptySuffix)).offsets[1]? =
        some { x := 0, y := 0 } ∧
      ((assemble wrapInt32 wideIndexPrefix).offsets ++
        (assemble wrapInt32 emptySuffix).offsets.map
          (fun o => { x := o.x + indexCount wideIndexPrefix,
                      y := o.y + vertexCount wideIndexPrefix }))[1]? =
        some { x := 4294967296, y := 0 } := by
  constructor
  · rw [assemble_offsets_getElem? wrapInt32 (wideIndexPrefix ++ emptySuffix) 1 (by decide),
      wideIndexPrefix_count.2.2.1, wideIndexPrefix_count.2.2.2, toUInt32_two_pow]
    rfl
  · have h1 : (assemble wrapInt32 wideIndexPrefix).offsets = [{ x := 0, y := 0 }] := by
      have h := assemble_snoc_offsets wrapInt32 []
        { Vertices := [], Indices := List.replicate (2 ^ 32) 0, Materials := [],
          Procedural := none }
      exact h
    have h2 : (assemble wrapInt32 emptySuffix).offsets = [{ x := 0, y := 0 }] := rfl
    rw [h1, h2, wideIndexPrefix_count.1, wideIndexPrefix_count.2.1]
    rfl

/-- C19 (amended): for all model sequences `xs` and `ys`, assembling `xs ++ ys`
gives index, material, AABB and procedural arrays equal to those of `xs`
followed by those of `ys`.  When the total index and vertex counts are below
`2 ^ 32`, the offset array is the offsets of `xs` followed by the offsets of `ys`
each increased by (total index count of `xs`, total vertex count of `xs`).  When
the total vertex and material counts are below `2 ^ 32`, the vertex array is the
vertices of `xs` followed by the vertices of `ys` with each material index
increased, in the arithmetic of the index field, by the total material count
of `xs`. -/
theorem C19_compositional (wrap : Int → Int) (xs ys : List Model) :
    (assemble wrap (xs ++ ys)).indices = (assemble wrap xs).indices ++ (assemble wrap ys).indices ∧
    (assemble wrap (xs ++ ys)).materials =
      (assemble wrap xs).materials ++ (assemble wrap ys).materials ∧
    (assemble wrap (xs ++ ys)).aabbs = (assemble wrap xs).aabbs ++ (assemble wrap ys).aabbs ∧
    (assemble wrap (xs ++ ys)).procedurals =
      (assemble wrap xs).procedurals ++ (assemble wrap ys).procedurals ∧
    (indexCount (xs ++ ys) < 2 ^ 32 → vertexCount (xs ++ ys) < 2 ^ 32 →
      (assemble wrap (xs ++ ys)).offsets =
        (assemble wrap xs).offsets ++
          (assemble wrap ys).offsets.map
            (fun o => { x := o.x + indexCount xs, y := o.y + vertexCount xs })) ∧
    (vertexCount (xs ++ ys) < 2 ^ 32 → materialCount (xs ++ ys) < 2 ^ 32 →
      (∀ a b : Int, wrap (wrap a + b) = wrap (a + b)) →
      (assemble wrap (xs ++ ys)).vertices =
        (assemble wrap xs).vertices ++
          (assemble wrap ys).vertices.map
            (fun v => { v with MaterialIndex := wrap (v.MaterialIndex + (materialCount xs : Int)) })) := by
  refine ⟨?_, ?_, ?_, ?_, ?_, ?_⟩
  · simp [assemble_indices]
  · simp [assemble_materials]
  · simp [assemble_aabbs]
  · simp [assemble_procedurals]
  · exact assemble_append_offsets wrap xs ys
  · intro hvc hmc hw
    exact assemble_append_vertices wrap hw xs ys hvc hmc

/-- C19 (amended) at `[A]` followed by `[B]` with a signed 32-bit index field. -/
theorem C19_compositional_witness :
    (assemble wrapInt32 ([modelA] ++ [modelB])).offsets =
        (assemble wrapInt32 [modelA]).offsets ++
          (assemble wrapInt32 [modelB]).offsets.map
            (fun o => { x := o.x + indexCount [modelA], y := o.y + vertexCount [modelA] }) ∧
      (assemble wrapInt32 ([modelA] ++ [modelB])).vertices =
        (assemble wrapInt32 [modelA]).vertices ++
          (assemble wrapInt32 [modelB]).vertices.map
            (fun v => { v with
              MaterialIndex := wrapInt32 (v.MaterialIndex + (materialCount [modelA] : Int)) }) :=
  ⟨(C19_compositional wrapInt32 [modelA] [modelB]).2.2.2.2.1 (by decide) (by decide),
    (C19_compositional wrapInt32 [modelA] [modelB]).2.2.2.2.2 (by decide) (by decide)
      wrapInt32_add⟩

end Assets
